import Mathlib

/-!
Verification of the poldercast topology engine against its specification.

The Rust sources are shallowly embedded: byte strings become `List Nat`
(each element a byte value), machine integers become `Nat` with explicit
`% 2 ^ w` where overflow matters, fallible or panicking operations return
`Except`/`Option`, and the LRU caches of the `lru` crate become association
lists in most-recently-used-first order together with a capacity.
-/

namespace Poldercast

/-! ## Topic and subscriptions (src/topic.rs) -/

/-- `Subscription::SIZE = Topic::SIZE + InterestLevel::SIZE = 33`. -/
def SUBSCRIPTION_SIZE : Nat := 33

/-- `Subscriptions::MAX_NUM_SUBSCRIPTIONS = 0b0000_0011_1111_1111`. -/
def MAX_NUM_SUBSCRIPTIONS : Nat := 1023

/-- `InterestLevel::priority_score`: `if self < other { self.0 as usize }
else { self.0 as usize + other.0 as usize }` (interest levels are bytes,
the result is a `usize`, so no overflow is involved). -/
def priority_score (a b : Nat) : Nat :=
  if a < b then a else a + b

/-- `SubscriptionsSlice::number_subscriptions`: `self.0.len() / Subscription::SIZE`. -/
def number_subscriptions (s : List Nat) : Nat :=
  s.length / SUBSCRIPTION_SIZE

/-- `SubscriptionsSlice::subscription_offset`: `index * Subscription::SIZE`. -/
def subscription_offset (index : Nat) : Nat :=
  index * SUBSCRIPTION_SIZE

/-- Rust slice indexing `&s[a..b]`: panics (modelled by `Except.error ()`)
unless `a <= b` and `b <= s.len()`. -/
def sliceRange (s : List Nat) (a b : Nat) : Except Unit (List Nat) :=
  if a ≤ b ∧ b ≤ s.length then Except.ok ((s.drop a).take (b - a)) else Except.error ()

/-- `SubscriptionsSlice::get`: returns `None` when `len == 0 || len < index`,
otherwise slices `&self.0[offset..offset + Subscription::SIZE]` (which
panics when the slice bound exceeds the byte length). -/
def subscriptions_get (s : List Nat) (index : Nat) : Except Unit (Option (List Nat)) :=
  let len := number_subscriptions s
  if len = 0 ∨ len < index then Except.ok none
  else
    let off := subscription_offset index
    match sliceRange s off (off + SUBSCRIPTION_SIZE) with
    | Except.ok sub => Except.ok (some sub)
    | Except.error e => Except.error e

/-- `SubscriptionsSlice::pop_back`: `let index = self.number_subscriptions();
let sub = self.get(index)?; self.0 = &self.0[..index]; Some(sub)`.
Returns the popped entry together with the remaining slice. -/
def subscriptions_pop_back (s : List Nat) :
    Except Unit (Option (List Nat × List Nat)) :=
  let index := number_subscriptions s
  match subscriptions_get s index with
  | Except.error e => Except.error e
  | Except.ok none => Except.ok none
  | Except.ok (some sub) =>
    match sliceRange s 0 index with
    | Except.ok rest => Except.ok (some (sub, rest))
    | Except.error e => Except.error e

/-- A valid one-entry subscriptions slice: 33 zero bytes. -/
def oneSubscriptionSlice : List Nat := List.replicate 33 0

/-! ### Claim C5 -/

/-- Claim C5, counterexample: at interest levels `a = 2`, `b = 1` (which
differ) the code computes `priority_score 2 1 = 3`, not `min 2 1 = 1`,
and the function is not symmetric: `priority_score 1 2 = 1`. -/
theorem priority_score_not_min_counterexample :
    priority_score 2 1 = 3 ∧ min 2 1 = 1 ∧ priority_score 1 2 = 1 ∧
      priority_score 2 1 ≠ priority_score 1 2 := by
  decide

/-- Claim C5, amended: `priority_score a b` equals `a` when `a < b`
(which is `min a b` in that case) and equals `a + b` when `a ≥ b`;
in particular it equals `a + b` when the two levels are equal, but for
`a > b` it is `a + b` rather than `min a b`, so it is not symmetric. -/
theorem priority_score_amended (a b : Nat) :
    (a < b → priority_score a b = a) ∧ (b ≤ a → priority_score a b = a + b) := by
  constructor
  · intro h
    simp [priority_score, h]
  · intro h
    simp [priority_score, Nat.not_lt.mpr h]

/-- Claim C5, witness for the amended theorem at concrete inputs. -/
theorem priority_score_amended_witness :
    priority_score 1 2 = 1 ∧ priority_score 2 2 = 4 :=
  ⟨(priority_score_amended 1 2).1 (by decide),
   (priority_score_amended 2 2).2 (by decide)⟩

/-! ### Claim C10 -/

/-- Claim C10: on the valid one-entry subscriptions slice (33 bytes) the
index `1 = number_subscriptions` is out of range, yet `get` takes the
`Some` branch (its bound check is `len < index` instead of
`len <= index`) and slices bytes `33..66` of a 33-byte slice, which
panics; consequently `pop_back` on this non-empty slice panics as well
instead of returning the final entry. -/
theorem subscriptions_get_out_of_range_panics :
    number_subscriptions oneSubscriptionSlice = 1 ∧
      subscriptions_get oneSubscriptionSlice 1 = Except.error () ∧
      subscriptions_pop_back oneSubscriptionSlice = Except.error () ∧
      subscriptions_get oneSubscriptionSlice 2 = Except.ok none :=
  ⟨rfl, rfl, rfl, rfl⟩

/-! ## Gossip record codec (src/gossip.rs)

Byte layout constants: `INFO` at 0..2, `ID` at 2..34, `TIME` at 34..38,
then 4 (IPv4) or 16 (IPv6) address bytes and a 2-byte port.  Ed25519 is
kept abstract: the public key, the signing function and the verification
function are parameters of the embedding. -/

def SIGNATURE_SIZE : Nat := 64

def IPV4_END : Nat := 42

def IPV6_END : Nat := 54

/-- `Gossip::MAX_SIZE = IPV6_END + Signature::SIZE + 1023 * Subscription::SIZE`. -/
def GOSSIP_MAX_SIZE : Nat := IPV6_END + SIGNATURE_SIZE + MAX_NUM_SUBSCRIPTIONS * SUBSCRIPTION_SIZE

inductive GossipError where
  | invalidSize (min : Nat) (max : Option Nat)
  | invalidSignature
  | invalidSubscription (index : Nat)

/-- `GossipInfo::set_num_subscriptions`: `num &= 1023; self.0 &= !(1023u16);
self.0 &= num as u16` (note: the last operation is `&=` in the source). -/
def set_num_subscriptions (info num : Nat) : Nat :=
  let num := num &&& MAX_NUM_SUBSCRIPTIONS
  let info := info &&& 0xFC00
  info &&& num

/-- `GossipInfo::set_ipv4`: `self.0 |= 0b1000_0000_0000_0000`. -/
def set_ipv4 (info : Nat) : Nat := info ||| 0x8000

/-- `GossipInfo::set_ipv6`: `self.0 &= 0b0111_1111_1111_1111`. -/
def set_ipv6 (info : Nat) : Nat := info &&& 0x7FFF

/-- `GossipInfo::is_ipv4`. -/
def is_ipv4 (info : Nat) : Bool := info &&& 0x8000 == 0x8000

/-- `GossipInfo::num_subscriptions`: `self.0 & 0b0000_0011_1111_1111`. -/
def num_subscriptions (info : Nat) : Nat := info &&& 0x3FF

/-- `GossipInfo::signature_start`: `subs_start = if ipv4 { 4 + 2 } else { 16 + 2 };
subs_start + num_subs * Subscription::SIZE`. -/
def signature_start (info : Nat) : Nat :=
  (if is_ipv4 info then 4 + 2 else 16 + 2) + num_subscriptions info * SUBSCRIPTION_SIZE

/-- `GossipInfo::signature_end`: `signature_start + Signature::SIZE`. -/
def signature_end (info : Nat) : Nat := signature_start info + SIGNATURE_SIZE

/-- Big-endian bytes of a `u16`. -/
def be16bytes (n : Nat) : List Nat := [n / 256 % 256, n % 256]

/-- Big-endian bytes of a `u32`. -/
def be32bytes (n : Nat) : List Nat :=
  [n / 2 ^ 24 % 256, n / 2 ^ 16 % 256, n / 256 % 256, n % 256]

/-- `u16::from_be_bytes` on the first two bytes of a slice. -/
def be16read (s : List Nat) : Nat := s.headD 0 * 256 + (s.drop 1).headD 0

/-- `bytes[i..i + src.len()].copy_from_slice(src)` (all uses are in range). -/
def writeAt (bytes : List Nat) (i : Nat) (src : List Nat) : List Nat :=
  bytes.take i ++ src ++ bytes.drop (i + src.length)

/-- `std::net::SocketAddr`: an IPv4 or IPv6 address (raw octets) and a port. -/
inductive SockAddr where
  | v4 (ip : List Nat) (port : Nat)
  | v6 (ip : List Nat) (port : Nat)

def SockAddr.port : SockAddr → Nat
  | SockAddr.v4 _ p => p
  | SockAddr.v6 _ p => p

/-- `Gossip::new(address, id, subscriptions)`: assembles the packed record
and signs the prefix.  `pk` is `id.public_key()`, `sign` is `id.sign`, and
`time` is `Time::now()` (clock value passed in explicitly). -/
def gossip_new (pk : List Nat) (sign : List Nat → List Nat) (time : Nat)
    (address : SockAddr) (subscriptions : List Nat) : List Nat :=
  let bytes := List.replicate GOSSIP_MAX_SIZE 0
  let info := set_num_subscriptions 0 (number_subscriptions subscriptions)
  let info := match address with
    | SockAddr.v4 _ _ => set_ipv4 info
    | SockAddr.v6 _ _ => set_ipv6 info
  let bytes := writeAt bytes 0 (be16bytes info)
  let bytes := writeAt bytes 2 pk
  let bytes := writeAt bytes 34 (be32bytes time)
  let st := match address with
    | SockAddr.v4 ip _ => (writeAt bytes 38 ip, IPV4_END)
    | SockAddr.v6 ip _ => (writeAt bytes 38 ip, IPV6_END)
  let bytes := st.1
  let portIndex := st.2
  let bytes := writeAt bytes portIndex (be16bytes address.port)
  let bytes := writeAt bytes (portIndex + 2) subscriptions
  let sStart := signature_start info
  let signature := sign (bytes.take sStart)
  let bytes := writeAt bytes sStart signature
  bytes.take (signature_end info)

/-- `GossipInfo::try_from_slice`: fails with `InvalidSize` when fewer than
two bytes are present, otherwise reads the big-endian `u16`. -/
def info_try_from_slice (s : List Nat) : Except GossipError Nat :=
  if s.length < 2 then Except.error (GossipError.invalidSize 2 none)
  else Except.ok (be16read s)

/-- `GossipSlice::id`: bytes 2..34. -/
def gossip_id (s : List Nat) : List Nat := (s.drop 2).take 32

/-- `GossipSlice::subscriptions`: the `num_subscriptions * 33` bytes starting
at `IPV4_END + 2` or `IPV6_END + 2` depending on the info bit 15. -/
def gossip_subscriptions_bytes (info : Nat) (s : List Nat) : List Nat :=
  let start := if is_ipv4 info then IPV4_END + 2 else IPV6_END + 2
  (s.drop start).take (num_subscriptions info * SUBSCRIPTION_SIZE)

/-- `GossipSlice::signature`: the 64 bytes starting at `signature_start`. -/
def gossip_signature (info : Nat) (s : List Nat) : List Nat :=
  (s.drop (signature_start info)).take SIGNATURE_SIZE

/-- Iterating a subscriptions slice: the consecutive 33-byte entries. -/
def subscription_chunks (s : List Nat) : List (List Nat) :=
  (List.range (number_subscriptions s)).map
    (fun i => (s.drop (subscription_offset i)).take SUBSCRIPTION_SIZE)

/-- The per-entry validation loop of `GossipSlice::try_from_slice`:
`SubscriptionSlice::try_from_slice` fails exactly when an entry does not
have 33 bytes; the result is the index of the first bad entry. -/
def first_bad_subscription (chunks : List (List Nat)) : Option Nat :=
  chunks.findIdx? (fun c => c.length ≠ SUBSCRIPTION_SIZE)

/-- `GossipSlice::try_from_slice`: reads the info word, checks
`signature_end == len`, validates every subscription entry, then checks the
signature: `if pk.verify(signed_data, &signature) { Err(InvalidSignature) }
else { Ok(..) }` (as written in the source).  `verify pk msg sig` is
Ed25519 verification, kept abstract. -/
def gossip_try_from_slice (verify : List Nat → List Nat → List Nat → Bool)
    (s : List Nat) : Except GossipError (List Nat) :=
  match info_try_from_slice s with
  | Except.error e => Except.error e
  | Except.ok info =>
    if signature_end info ≠ s.length then
      Except.error (GossipError.invalidSize (signature_end info) (some (signature_end info)))
    else
      match first_bad_subscription (subscription_chunks (gossip_subscriptions_bytes info s)) with
      | some index => Except.error (GossipError.invalidSubscription index)
      | none =>
        let pk := gossip_id s
        let signature := gossip_signature info s
        let signedData := s.take (signature_start info)
        if verify pk signedData signature then Except.error GossipError.invalidSignature
        else Except.ok s

/-! ### Claim C1 -/

/-- A byte string of the exact size `try_from_slice` expects for an IPv4
record with zero declared subscriptions: info = `0x8000`, then 68 bytes. -/
def c1Record : List Nat := 128 :: 0 :: List.replicate 68 0

/-- Claim C1: the signature check in `GossipSlice::try_from_slice` is
inverted.  On a correctly-sized record, when verification succeeds
(modelled by `verify` constantly true) the parser rejects the record with
`InvalidSignature`, and when verification fails (`verify` constantly
false) it accepts the record — the exact opposite of the claim. -/
theorem gossip_signature_check_inverted :
    gossip_try_from_slice (fun _ _ _ => true) c1Record
        = Except.error GossipError.invalidSignature ∧
      gossip_try_from_slice (fun _ _ _ => false) c1Record = Except.ok c1Record :=
  ⟨rfl, rfl⟩

/-! ### Claim C2 -/

/-- One 33-byte subscription entry (topic bytes all 1, interest level 1). -/
def c2Subscriptions : List Nat := List.replicate 33 1

/-- The record built by `Gossip::new` for one subscription, a concrete IPv4
address, key and clock. -/
def c2Record : List Nat :=
  gossip_new (List.replicate 32 2) (fun _ => List.replicate 64 3) 0
    (SockAddr.v4 [127, 0, 0, 1] 9876) c2Subscriptions

/-- Claim C2: `GossipInfo::set_num_subscriptions` uses `&=` where `|=` is
intended, so the stored count is always 0: encoding one subscription
yields an info word whose subscription count is 0, and decoding the
record produced by `Gossip::new` yields an empty subscriptions list
instead of the one-entry input list — the round-trip fails. -/
theorem gossip_new_loses_subscriptions :
    number_subscriptions c2Subscriptions = 1 ∧
      set_num_subscriptions 0 1 = 0 ∧
      (∀ info num, set_num_subscriptions info num = 0) ∧
      num_subscriptions (be16read c2Record) = 0 ∧
      gossip_subscriptions_bytes (be16read c2Record) c2Record = [] := by
  refine ⟨rfl, rfl, ?_, rfl, rfl⟩
  intro info num
  show info &&& 0xFC00 &&& (num &&& MAX_NUM_SUBSCRIPTIONS) = 0
  have h1 : info &&& 0xFC00 &&& (num &&& 1023) = info &&& (0xFC00 &&& (num &&& 1023)) :=
    Nat.and_assoc info 0xFC00 (num &&& 1023)
  have h2 : 0xFC00 &&& (num &&& 1023) = num &&& (1023 &&& 0xFC00) := by
    rw [Nat.and_comm 0xFC00, Nat.and_assoc]
  have h3 : (1023 : Nat) &&& 0xFC00 = 0 := by decide
  simp [MAX_NUM_SUBSCRIPTIONS, h1, h2, h3]

/-! ## The `lru` crate's `LruCache`

Modelled as an association list in most-recently-used-first order plus the
capacity.  Keys are `Nat` (they stand for Ed25519 public keys, topics or
socket addresses, all compared by value). -/

structure Lru (α : Type) where
  entries : List (Nat × α)
  cap : Nat

def Lru.len {α : Type} (c : Lru α) : Nat := c.entries.length

/-- `LruCache::contains`. -/
def Lru.containsKey {α : Type} (c : Lru α) (k : Nat) : Bool :=
  (c.entries.lookup k).isSome

/-- `LruCache::peek`: lookup without touching the recency order. -/
def Lru.peek {α : Type} (c : Lru α) (k : Nat) : Option α :=
  c.entries.lookup k

/-- `LruCache::put`: an existing key has its value replaced and is promoted
to most-recently-used; a new key is inserted in front, evicting the
least-recently-used entry when the cache is at capacity. -/
def Lru.put {α : Type} (c : Lru α) (k : Nat) (v : α) : Lru α :=
  if (c.entries.lookup k).isSome then
    ⟨(k, v) :: c.entries.eraseP (fun e => e.1 == k), c.cap⟩
  else if c.cap ≤ c.entries.length then
    ⟨(k, v) :: c.entries.dropLast, c.cap⟩
  else
    ⟨(k, v) :: c.entries, c.cap⟩

/-- `LruCache::pop`: remove a key wherever it sits. -/
def Lru.popKey {α : Type} (c : Lru α) (k : Nat) : Lru α :=
  ⟨c.entries.eraseP (fun e => e.1 == k), c.cap⟩

/-- `LruCache::get_mut` followed by an in-place update `f` of the value:
the entry is promoted to most-recently-used. -/
def Lru.getModify {α : Type} (c : Lru α) (k : Nat) (f : α → α) : Lru α :=
  match c.entries.lookup k with
  | some v => ⟨(k, f v) :: c.entries.eraseP (fun e => e.1 == k), c.cap⟩
  | none => c

/-! ## Priority map (src/priority_map.rs)

`by_priority` is the `BTreeMap<K, LruCache<V, _>>`: groups in ascending
priority order, each group a most-recently-used-first list of values.
`by_value` is implicit (the set of all values of all groups).  The
capacity is `cap`. -/

structure PriorityMap (K V : Type) where
  byPriority : List (K × List V)
  cap : Nat

def pmEmpty (K V : Type) (cap : Nat) : PriorityMap K V := ⟨[], cap⟩

/-- `PriorityMap::len`: the size of `by_value`, i.e. the total number of
entries across all priority groups. -/
def pmLen {K V : Type} (m : PriorityMap K V) : Nat :=
  (m.byPriority.map (fun g => g.2.length)).sum

/-- The key of `by_priority.iter().next()`: the lowest priority present. -/
def pmLowest {K V : Type} (m : PriorityMap K V) : Option K :=
  m.byPriority.head?.map Prod.fst

/-- `PriorityMap::iter`: descending priority, most-recently-used first
inside a priority group. -/
def pmIter {K V : Type} (m : PriorityMap K V) : List (K × V) :=
  (m.byPriority.reverse.map (fun g => g.2.map (fun v => (g.1, v)))).flatten

def groupValues {K V : Type} (l : List (K × List V)) : List V :=
  (l.map Prod.snd).flatten

/-- All values present in the map (the key set of `by_value`). -/
def pmValues {K V : Type} (m : PriorityMap K V) : List V :=
  groupValues m.byPriority

/-- `PriorityMap::pop_lowest`: drop the least-recently-used value of the
lowest priority group, removing the group when it becomes empty. -/
def pmPopLowest {K V : Type} (m : PriorityMap K V) : PriorityMap K V :=
  match m.byPriority with
  | [] => m
  | g :: rest =>
    let rem := g.2.dropLast
    if rem.isEmpty then ⟨rest, m.cap⟩ else ⟨(g.1, rem) :: rest, m.cap⟩

/-- The `while self.len() >= self.cap { self.pop_lowest(); }` loop of
`put`, with explicit fuel (each iteration removes one entry, so `pmLen m`
iterations always suffice). -/
def pmEvict {K V : Type} : Nat → PriorityMap K V → PriorityMap K V
  | 0, m => m
  | Nat.succ fuel, m => if m.cap ≤ pmLen m then pmEvict fuel (pmPopLowest m) else m

/-- `PriorityMap::remove`: drop the entry holding value `v` (values are
unique across the map), removing its priority group if it becomes empty. -/
def pmRemove {K V : Type} [DecidableEq V] (m : PriorityMap K V) (v : V) :
    PriorityMap K V :=
  ⟨(m.byPriority.map (fun g => (g.1, g.2.filter (fun w => decide (w ≠ v))))).filter
      (fun g => !g.2.isEmpty), m.cap⟩

/-- Insert value `v` at priority `k`: `by_priority.entry(k).or_insert_with(
LruCache::unbounded).put(v, ..)` — the value lands most-recently-used in
its (sorted) priority group. -/
def pmInsertGroup {K V : Type} [LinearOrder K] (k : K) (v : V) :
    List (K × List V) → List (K × List V)
  | [] => [(k, [v])]
  | g :: rest =>
    if k < g.1 then (k, [v]) :: g :: rest
    else if k = g.1 then (g.1, v :: g.2) :: rest
    else g :: pmInsertGroup k v rest

/-- The early-return guard of `put`: the map has a lowest priority and the
new key is strictly below it. -/
def pmBelowLowest {K V : Type} [LinearOrder K] (m : PriorityMap K V) (k : K) : Bool :=
  match pmLowest m with
  | some lo => decide (k < lo)
  | none => false

/-- `PriorityMap::put`: when at capacity, a key strictly below the current
minimum is ignored; otherwise the lowest entries are evicted until there
is room, any existing entry with the same value is removed, and the new
entry is inserted. -/
def pmPut {K V : Type} [LinearOrder K] [DecidableEq V]
    (m : PriorityMap K V) (k : K) (v : V) : PriorityMap K V :=
  if decide (m.cap ≤ pmLen m) && pmBelowLowest m k then m
  else
    let m1 := if m.cap ≤ pmLen m then pmEvict (pmLen m) m else m
    let m2 := pmRemove m1 v
    ⟨pmInsertGroup k v m2.byPriority, m2.cap⟩

/-! ### Claim C8 -/

/-- Claim C8: when the map is full (`len = cap`) and the new priority `k`
is strictly below the current minimum priority, `put` is a no-op: the map
is unchanged and so is its iteration order. -/
theorem priority_map_put_full_low_noop {K V : Type} [LinearOrder K] [DecidableEq V]
    (m : PriorityMap K V) (k : K) (v : V) (p : K)
    (hfull : pmLen m = m.cap) (hlow : pmLowest m = some p) (hk : k < p) :
    pmPut m k v = m ∧ pmIter (pmPut m k v) = pmIter m := by
  have hcond : (decide (m.cap ≤ pmLen m) && pmBelowLowest m k) = true := by
    simp [pmBelowLowest, hlow, hfull, hk]
  unfold pmPut
  rw [if_pos]
  · exact ⟨rfl, rfl⟩
  · exact of_decide_eq_true (by simp [hcond])

/-- Claim C8, witness: a full one-entry map with minimum priority 5
ignores a `put` at priority 3. -/
theorem priority_map_put_full_low_noop_witness :
    pmPut (⟨[(5, [0])], 1⟩ : PriorityMap Nat Nat) 3 0 = ⟨[(5, [0])], 1⟩ ∧
      pmIter (pmPut (⟨[(5, [0])], 1⟩ : PriorityMap Nat Nat) 3 0)
        = pmIter (⟨[(5, [0])], 1⟩ : PriorityMap Nat Nat) :=
  priority_map_put_full_low_noop ⟨[(5, [0])], 1⟩ 3 0 5 (by decide) (by decide) (by decide)

/-! ## Rings layer (src/layer/rings.rs) -/

/-- `u8::wrapping_add` (operands already reduced mod 256 by their casts). -/
def u8_wrapping_add (a b : Nat) : Nat := (a + b) % 256

/-- `u8::wrapping_sub` on byte values. -/
def u8_wrapping_sub (a b : Nat) : Nat := (a + (256 - b % 256)) % 256

/-- `u8::wrapping_mul` on byte values. -/
def u8_wrapping_mul (a b : Nat) : Nat := a * b % 256

structure Ring where
  length : Nat
  predecessors : Lru Unit
  successors : Lru Unit
  current_low : Option Nat
  current_max : Option Nat

/-- `Ring::new(length)`: both neighbor caches get capacity `length / 2`. -/
def Ring.new (length : Nat) : Ring :=
  ⟨length, ⟨[], length / 2⟩, ⟨[], length / 2⟩, none, none⟩

/-- `Ring::interest_level`: `max = self.length; size = preds.len() as u8 +
succs.len() as u8 (wrapping); multiplier = 255 / max (wrapping division);
level = (max - size) * multiplier (both wrapping)`. -/
def interest_level (r : Ring) : Nat :=
  let max := r.length
  let size := u8_wrapping_add (r.predecessors.len % 256) (r.successors.len % 256)
  let multiplier := 255 / max
  u8_wrapping_mul (u8_wrapping_sub max size) multiplier

/-- `Ring::receive_gossips`: compares the local id with the incoming id and
updates one side of the ring, as written in the source (ids greater than
ours drive the `current_low`/`predecessors` side, ids smaller than ours
the `current_max`/`successors` side, and an already-tracked id wins when
the comparison `low < their_id` resp. `high > their_id` holds). -/
def receive_gossips (r : Ring) (our_id their_id : Nat) : Ring :=
  match compare our_id their_id with
  | Ordering.eq => r
  | Ordering.lt =>
    match r.current_low with
    | some low =>
      if low < their_id then
        let preds := (r.predecessors.popKey low).put their_id ()
        { r with predecessors := preds, current_low := some their_id }
      else r
    | none =>
      { r with predecessors := r.predecessors.put their_id (),
               current_low := some their_id }
  | Ordering.gt =>
    match r.current_max with
    | some high =>
      if their_id < high then
        let succs := (r.successors.popKey high).put their_id ()
        { r with successors := succs, current_max := some their_id }
      else r
    | none =>
      { r with successors := r.successors.put their_id (),
               current_max := some their_id }

structure Rings where
  length : Nat
  links : Lru Ring

/-- `Rings::new(length)`: the topic cache holds up to 1023 rings. -/
def Rings.new (length : Nat) : Rings :=
  ⟨length, ⟨[], MAX_NUM_SUBSCRIPTIONS⟩⟩

/-- `Layer::subscribe` for `Rings`: create an empty ring for a new topic. -/
def Rings.subscribeTopic (rs : Rings) (topic : Nat) : Rings :=
  if rs.links.containsKey topic then rs
  else { rs with links := rs.links.put topic (Ring.new rs.length) }

/-- `Rings::receive_gossip`: for every topic of the incoming profile that we
maintain a ring for, feed the peer id to that ring. -/
def Rings.receive_gossip (rs : Rings) (our_id their_id : Nat)
    (topics : List Nat) : Rings :=
  topics.foldl
    (fun rs t =>
      { rs with links := rs.links.getModify t (fun r => receive_gossips r our_id their_id) })
    rs

/-- `Layer::populate` for `Rings`: `receive_gossip(our_id, peer_id, topics
of the peer profile)`.  A peer is its id and its subscribed topics. -/
def Rings.populate (rs : Rings) (our_id : Nat) (peer : Nat × List Nat) : Rings :=
  rs.receive_gossip our_id peer.1 peer.2

/-- `Layer::subscriptions` for `Rings`: walk the rings, skip the topics with
no interest, and `put` the rest into the output priority map. -/
def rings_layer_subscriptions (rs : Rings) (output : PriorityMap Nat Nat) :
    PriorityMap Nat Nat :=
  rs.links.entries.foldl
    (fun out tr =>
      if interest_level tr.2 = 0 then out else pmPut out (interest_level tr.2) tr.1)
    output

/-! ### Claim C3 -/

/-- The scenario of the claim: local id 50, peers 10, 30, 70 and 90 all
subscribed to topic 7, fed to `populate` after subscribing to topic 7. -/
def c3Rings : Rings :=
  [(10, [7]), (30, [7]), (70, [7]), (90, [7])].foldl
    (fun rs p => rs.populate 50 p)
    ((Rings.new 4).subscribeTopic 7)

/-- Claim C3: with local id 50 and peers 10, 30, 70, 90 all subscribed to
topic 7, populating the rings leaves `predecessors = [90]` and
`successors = [10]` — the two sides are swapped and each keeps only the
single farthest peer, instead of predecessors `[30, 10]` and successors
`[70, 90]` as the claim states. -/
theorem rings_populate_scenario_counterexample :
    ((c3Rings.links.peek 7).map
        (fun r => (r.predecessors.entries.map Prod.fst,
                   r.successors.entries.map Prod.fst))) = some ([90], [10]) ∧
      ((c3Rings.links.peek 7).map
        (fun r => (r.predecessors.entries.map Prod.fst,
                   r.successors.entries.map Prod.fst))) ≠ some ([30, 10], [70, 90]) := by
  exact ⟨rfl, by decide⟩

/-! ### Claim C9 -/

theorem pmValues_popLowest_subset {K V : Type} (m : PriorityMap K V) (x : V)
    (hx : x ∈ pmValues (pmPopLowest m)) : x ∈ pmValues m := by
  rcases m with ⟨groups, cap⟩
  cases groups with
  | nil => exact hx
  | cons g rest =>
    simp only [pmPopLowest] at hx
    by_cases h : (g.2.dropLast).isEmpty <;>
      simp only [h, if_pos, if_neg, Bool.false_eq_true, not_false_eq_true] at hx <;>
      simp only [pmValues, groupValues, List.map_cons, List.flatten_cons,
        List.mem_append] at hx ⊢
    · exact Or.inr hx
    · rcases hx with hx | hx
      · exact Or.inl ((List.dropLast_sublist g.2).subset hx)
      · exact Or.inr hx

theorem pmValues_evict_subset {K V : Type} (fuel : Nat) (m : PriorityMap K V) (x : V)
    (hx : x ∈ pmValues (pmEvict fuel m)) : x ∈ pmValues m := by
  induction fuel generalizing m with
  | zero => exact hx
  | succ n ih =>
    simp only [pmEvict] at hx
    by_cases h : m.cap ≤ pmLen m
    · rw [if_pos h] at hx
      exact pmValues_popLowest_subset m x (ih (pmPopLowest m) hx)
    · rwa [if_neg h] at hx

theorem pmValues_remove_subset {K V : Type} [DecidableEq V]
    (m : PriorityMap K V) (v x : V) (hx : x ∈ pmValues (pmRemove m v)) :
    x ∈ pmValues m := by
  simp only [pmValues, pmRemove, groupValues, List.mem_flatten, List.mem_map] at hx ⊢
  rcases hx with ⟨l, ⟨g, hg, rfl⟩, hxl⟩
  rcases (List.mem_filter.mp hg).1 with hg2
  rcases List.mem_map.mp hg2 with ⟨g0, hg0, rfl⟩
  exact ⟨g0.2, ⟨g0, hg0, rfl⟩, (List.mem_filter.mp hxl).1⟩

theorem groupValues_insertGroup {K V : Type} [LinearOrder K]
    (k : K) (v : V) (l : List (K × List V)) (x : V)
    (hx : x ∈ groupValues (pmInsertGroup k v l)) :
    x = v ∨ x ∈ groupValues l := by
  induction l with
  | nil =>
    simp only [pmInsertGroup, groupValues, List.map_cons, List.map_nil,
      List.flatten_cons, List.flatten_nil, List.append_nil, List.mem_singleton] at hx
    exact Or.inl hx
  | cons g rest ih =>
    simp only [pmInsertGroup] at hx
    by_cases h1 : k < g.1
    · rw [if_pos h1] at hx
      simp only [groupValues, List.map_cons, List.flatten_cons, List.mem_append,
        List.mem_singleton] at hx ⊢
      rcases hx with hx | hx | hx
      · exact Or.inl hx
      · exact Or.inr (Or.inl hx)
      · exact Or.inr (Or.inr hx)
    · rw [if_neg h1] at hx
      by_cases h2 : k = g.1
      · rw [if_pos h2] at hx
        simp only [groupValues, List.map_cons, List.flatten_cons, List.mem_append,
          List.mem_cons] at hx ⊢
        rcases hx with (hx | hx) | hx
        · exact Or.inl hx
        · exact Or.inr (Or.inl hx)
        · exact Or.inr (Or.inr hx)
      · rw [if_neg h2] at hx
        simp only [groupValues, List.map_cons, List.flatten_cons, List.mem_append] at hx ⊢
        rcases hx with hx | hx
        · exact Or.inr (Or.inl hx)
        · rcases ih hx with hv | hx
          · exact Or.inl hv
          · exact Or.inr (Or.inr hx)

theorem pmValues_put {K V : Type} [LinearOrder K] [DecidableEq V]
    (m : PriorityMap K V) (k : K) (v x : V)
    (hx : x ∈ pmValues (pmPut m k v)) : x ∈ pmValues m ∨ x = v := by
  unfold pmPut at hx
  by_cases hc : (decide (m.cap ≤ pmLen m) && pmBelowLowest m k) = true
  · rw [if_pos hc] at hx
    exact Or.inl hx
  · rw [if_neg hc] at hx
    rcases groupValues_insertGroup k v _ x hx with hv | hx
    · exact Or.inr hv
    · refine Or.inl ?_
      by_cases he : m.cap ≤ pmLen m
      · rw [if_pos he] at hx
        exact pmValues_evict_subset (pmLen m) m x
          (pmValues_remove_subset (pmEvict (pmLen m) m) v x hx)
      · rw [if_neg he] at hx
        exact pmValues_remove_subset m v x hx

theorem rings_layer_subscriptions_not_mem :
    ∀ (links : List (Nat × Ring)) (out : PriorityMap Nat Nat) (t : Nat),
    (∀ p ∈ links, p.1 = t → interest_level p.2 = 0) → t ∉ pmValues out →
    t ∉ pmValues (links.foldl
      (fun out tr =>
        if interest_level tr.2 = 0 then out else pmPut out (interest_level tr.2) tr.1)
      out) := by
  intro links
  induction links with
  | nil => intro out t hzero hout; exact hout
  | cons p rest ih =>
    intro out t hzero hout
    simp only [List.foldl_cons]
    refine ih _ t (fun q hq => hzero q (List.mem_cons_of_mem p hq)) ?_
    by_cases hz : interest_level p.2 = 0
    · rw [if_pos hz]
      exact hout
    · rw [if_neg hz]
      intro hmem
      rcases pmValues_put out (interest_level p.2) p.1 t hmem with hmem | rfl
      · exact hout hmem
      · exact hz (hzero p (List.mem_cons_self p rest) rfl)

/-- Claim C9: for a ring of maximum size `length ≤ 255` holding
`filled ≤ length` neighbors, the published interest level is exactly
`(length - filled) * (255 / length) % 256` (8-bit arithmetic with
truncating division), and a topic all of whose rings compute level 0 is
omitted from the subscriptions the Rings layer publishes. -/
theorem rings_interest_level_spec (r : Ring) (rs : Rings) (t : Nat)
    (hlen : r.length ≤ 255) (hpos : 0 < r.length)
    (hfill : r.predecessors.len + r.successors.len ≤ r.length)
    (hzero : ∀ p ∈ rs.links.entries, p.1 = t → interest_level p.2 = 0) :
    interest_level r
        = (r.length - (r.predecessors.len + r.successors.len)) * (255 / r.length) % 256 ∧
      t ∉ pmValues (rings_layer_subscriptions rs (pmEmpty Nat Nat MAX_NUM_SUBSCRIPTIONS)) := by
  constructor
  · simp only [interest_level, u8_wrapping_add, u8_wrapping_sub, u8_wrapping_mul]
    congr 2
    omega
  · exact rings_layer_subscriptions_not_mem rs.links.entries _ t hzero (by simp [pmValues, pmEmpty, groupValues])

/-- Claim C9, witness: a ring of size 4 with one neighbor advertises level
`(4 - 1) * (255 / 4) = 189`, and topic 5, whose ring is full (level 0), is
not published. -/
theorem rings_interest_level_spec_witness :
    interest_level ⟨4, ⟨[(1, ())], 2⟩, ⟨[], 2⟩, some 1, none⟩ = 189 ∧
      5 ∉ pmValues (rings_layer_subscriptions
        ⟨4, ⟨[(5, ⟨4, ⟨[(1, ()), (2, ())], 2⟩, ⟨[(3, ()), (6, ())], 2⟩, some 2, some 3⟩)],
             MAX_NUM_SUBSCRIPTIONS⟩⟩
        (pmEmpty Nat Nat MAX_NUM_SUBSCRIPTIONS)) := by
  have h := rings_interest_level_spec
    ⟨4, ⟨[(1, ())], 2⟩, ⟨[], 2⟩, some 1, none⟩
    ⟨4, ⟨[(5, ⟨4, ⟨[(1, ()), (2, ())], 2⟩, ⟨[(3, ()), (6, ())], 2⟩, some 2, some 3⟩)],
         MAX_NUM_SUBSCRIPTIONS⟩⟩
    5 (by decide) (by decide) (by decide) (by decide)
  exact ⟨h.1.trans (by decide), h.2⟩

/-! ## Profiles store (src/profiles.rs)

A `Profile` (src/profile.rs) is observed by the store only through
`last_update()`, which is its gossip's `time`; the embedding keeps exactly
that field. -/

structure Profile where
  last_update : Nat
deriving DecidableEq

structure Profiles where
  dirty : Lru Profile
  pool : Lru Profile
  trusted : Lru Profile

/-- `Profiles::new(dirty, pool, trusted)`. -/
def Profiles.new (dirty pool trusted : Nat) : Profiles :=
  ⟨⟨[], dirty⟩, ⟨[], pool⟩, ⟨[], trusted⟩⟩

/-- `Profiles::put`: look the id up with `peek` in dirty, then trusted,
then pool; replace the stored profile only when the stored `last_update`
is strictly older; a completely new id goes into the pool.  Returns the
`bool` of the source and the updated store. -/
def Profiles.put (ps : Profiles) (id : Nat) (profile : Profile) :
    Bool × Profiles :=
  match ps.dirty.peek id with
  | some entry =>
    if entry.last_update < profile.last_update then
      (false, { ps with dirty := ps.dirty.put id profile })
    else (false, ps)
  | none =>
    match ps.trusted.peek id with
    | some entry =>
      if entry.last_update < profile.last_update then
        (true, { ps with trusted := ps.trusted.put id profile })
      else (false, ps)
    | none =>
      match ps.pool.peek id with
      | some entry =>
        if entry.last_update < profile.last_update then
          (true, { ps with pool := ps.pool.put id profile })
        else (false, ps)
      | none => (true, { ps with pool := ps.pool.put id profile })

/-- The profile the store currently holds for an id, searching the tiers
in the order `put` does (an id lives in at most one tier). -/
def Profiles.stored (ps : Profiles) (id : Nat) : Option Profile :=
  match ps.dirty.peek id with
  | some p => some p
  | none =>
    match ps.trusted.peek id with
    | some p => some p
    | none => ps.pool.peek id

/-! ### Claim C7 -/

/-- The store after `put 1 {5}` with all three tiers of capacity 1. -/
def c7Store1 : Profiles := ((Profiles.new 1 1 1).put 1 ⟨5⟩).2

/-- The same store after the further puts `put 2 {1}` and `put 1 {3}`:
inserting id 2 evicts id 1 from the pool, and the later `put 1 {3}` then
re-inserts id 1 as a fresh entry with the older time 3. -/
def c7Store3 : Profiles := (((c7Store1.put 2 ⟨1⟩).2).put 1 ⟨3⟩).2

/-- Claim C7, counterexample: across the put sequence
`put 1 {5}; put 2 {1}; put 1 {3}` on a store with tier capacities 1, the
profile stored for id 1 goes from time 5 to time 3 — the stored
`last_update` is not non-decreasing across sequences of puts, because LRU
eviction forgets the stored time. -/
theorem profiles_put_time_decreases_counterexample :
    c7Store1.stored 1 = some ⟨5⟩ ∧ c7Store3.stored 1 = some ⟨3⟩ ∧ (3 : Nat) < 5 := by
  refine ⟨rfl, rfl, by decide⟩

/-! Helper lemmas about `Lru.put` lookups. -/

theorem lookup_eraseKey_ne {α : Type} (l : List (Nat × α)) (k j : Nat) (hne : j ≠ k) :
    (l.eraseP (fun e => e.1 == k)).lookup j = l.lookup j := by
  induction l with
  | nil => rfl
  | cons e rest ih =>
    rw [List.eraseP_cons]
    by_cases he : e.1 = k
    · have hb : (e.1 == k) = true := by simp [he]
      have hje : (j == e.1) = false := by simp [he, hne]
      simp [hb, List.lookup, hje]
    · have hb : (e.1 == k) = false := by simp [he]
      by_cases hj : j = e.1
      · simp [hb, List.lookup, hj]
      · have hje : (j == e.1) = false := by simp [hj]
        simp [hb, List.lookup, hje, ih]

theorem lookup_dropLast_some {α : Type} (l : List (Nat × α)) (j : Nat) (w : α)
    (h : l.dropLast.lookup j = some w) : l.lookup j = some w := by
  induction l with
  | nil => exact h
  | cons e rest ih =>
    cases rest with
    | nil => simp [List.lookup] at h
    | cons f rest2 =>
      rw [List.dropLast_cons₂] at h
      by_cases hj : j = e.1
      · simpa [List.lookup, hj] using h
      · have hje : (j == e.1) = false := by simp [hj]
        rw [List.lookup, hje] at h ⊢
        exact ih h

theorem Lru.peek_put_self {α : Type} (c : Lru α) (k : Nat) (v : α) :
    (c.put k v).peek k = some v := by
  unfold Lru.put Lru.peek
  by_cases h1 : (c.entries.lookup k).isSome
  · simp [h1, List.lookup]
  · by_cases h2 : c.cap ≤ c.entries.length <;> simp [h1, h2, List.lookup]

theorem Lru.peek_put_ne {α : Type} (c : Lru α) (k : Nat) (v : α) (j : Nat) (w : α)
    (hne : j ≠ k) (h : (c.put k v).peek j = some w) : c.peek j = some w := by
  unfold Lru.put at h
  unfold Lru.peek at h ⊢
  have hje : (j == k) = false := by simp [hne]
  by_cases h1 : (c.entries.lookup k).isSome
  · rw [if_pos h1] at h
    simp only [List.lookup, hje] at h
    rwa [lookup_eraseKey_ne c.entries k j hne] at h
  · rw [if_neg h1] at h
    by_cases h2 : c.cap ≤ c.entries.length
    · rw [if_pos h2] at h
      simp only [List.lookup, hje] at h
      exact lookup_dropLast_some c.entries j w h
    · rw [if_neg h2] at h
      simpa [List.lookup, hje] using h

theorem Lru.peek_put_contains_ne {α : Type} (c : Lru α) (k : Nat) (v : α) (j : Nat)
    (hc : (c.entries.lookup k).isSome) (hne : j ≠ k) :
    (c.put k v).peek j = c.peek j := by
  unfold Lru.put Lru.peek
  rw [if_pos hc]
  have hje : (j == k) = false := by simp [hne]
  simp only [List.lookup, hje]
  exact lookup_eraseKey_ne c.entries k j hne

/-- Claim C7, amended: a single `put` never decreases the stored
`last_update` of any id that has a stored profile both before and after
the call — the store replaces a profile only when the incoming one is
strictly newer — but eviction can remove a profile, and a later `put` of
the same id starts afresh, so monotonicity does not extend across
arbitrary put sequences. -/
theorem profiles_put_monotonic (ps : Profiles) (id : Nat) (profile : Profile)
    (j : Nat) (p0 p1 : Profile)
    (h0 : ps.stored j = some p0)
    (h1 : ((ps.put id profile).2).stored j = some p1) :
    p0.last_update ≤ p1.last_update := by
  by_cases hj : j = id
  · subst hj
    cases hd : ps.dirty.peek j with
    | some entry =>
      simp only [Profiles.stored, hd, Option.some.injEq] at h0
      by_cases hlt : entry.last_update < profile.last_update
      · simp only [Profiles.put, hd, if_pos hlt, Profiles.stored,
          Lru.peek_put_self, Option.some.injEq] at h1
        subst h0
        subst h1
        exact Nat.le_of_lt hlt
      · simp only [Profiles.put, hd, if_neg hlt, Profiles.stored,
          Option.some.injEq] at h1
        subst h0
        subst h1
        exact Nat.le_refl _
    | none =>
      cases ht : ps.trusted.peek j with
      | some entry =>
        simp only [Profiles.stored, hd, ht, Option.some.injEq] at h0
        by_cases hlt : entry.last_update < profile.last_update
        · simp only [Profiles.put, hd, ht, if_pos hlt, Profiles.stored,
            Lru.peek_put_self, Option.some.injEq] at h1
          subst h0
          subst h1
          exact Nat.le_of_lt hlt
        · simp only [Profiles.put, hd, ht, if_neg hlt, Profiles.stored,
            hd, ht, Option.some.injEq] at h1
          subst h0
          subst h1
          exact Nat.le_refl _
      | none =>
        cases hp : ps.pool.peek j with
        | some entry =>
          simp only [Profiles.stored, hd, ht, hp, Option.some.injEq] at h0
          by_cases hlt : entry.last_update < profile.last_update
          · simp only [Profiles.put, hd, ht, hp, if_pos hlt, Profiles.stored,
              Lru.peek_put_self, Option.some.injEq] at h1
            subst h0
            subst h1
            exact Nat.le_of_lt hlt
          · simp only [Profiles.put, hd, ht, hp, if_neg hlt, Profiles.stored,
              hd, ht, hp, Option.some.injEq] at h1
            subst h0
            subst h1
            exact Nat.le_refl _
        | none =>
          simp only [Profiles.stored, hd, ht, hp] at h0
          exact absurd h0 (by simp)
  · have hsame : ps.stored j = some p1 := by
      cases hd : ps.dirty.peek id with
      | some entry =>
        have hc : (ps.dirty.entries.lookup id).isSome := by
          unfold Lru.peek at hd
          simp [hd]
        have hdj : (ps.dirty.put id profile).peek j = ps.dirty.peek j :=
          Lru.peek_put_contains_ne ps.dirty id profile j hc hj
        by_cases hlt : entry.last_update < profile.last_update
        · simp only [Profiles.put, hd, if_pos hlt, Profiles.stored, hdj] at h1
          exact h1
        · simp only [Profiles.put, hd, if_neg hlt] at h1
          exact h1
      | none =>
        cases ht : ps.trusted.peek id with
        | some entry =>
          have hc : (ps.trusted.entries.lookup id).isSome := by
            unfold Lru.peek at ht
            simp [ht]
          have htj : (ps.trusted.put id profile).peek j = ps.trusted.peek j :=
            Lru.peek_put_contains_ne ps.trusted id profile j hc hj
          by_cases hlt : entry.last_update < profile.last_update
          · simp only [Profiles.put, hd, ht, if_pos hlt, Profiles.stored, htj] at h1
            exact h1
          · simp only [Profiles.put, hd, ht, if_neg hlt] at h1
            exact h1
        | none =>
          cases hp : ps.pool.peek id with
          | some entry =>
            have hc : (ps.pool.entries.lookup id).isSome := by
              unfold Lru.peek at hp
              simp [hp]
            have hpj : (ps.pool.put id profile).peek j = ps.pool.peek j :=
              Lru.peek_put_contains_ne ps.pool id profile j hc hj
            by_cases hlt : entry.last_update < profile.last_update
            · simp only [Profiles.put, hd, ht, hp, if_pos hlt, Profiles.stored, hpj] at h1
              exact h1
            · simp only [Profiles.put, hd, ht, hp, if_neg hlt] at h1
              exact h1
          | none =>
            simp only [Profiles.put, hd, ht, hp, Profiles.stored] at h1
            simp only [Profiles.stored]
            cases hdj : ps.dirty.peek j with
            | some q =>
              rw [hdj] at h1
              exact h1
            | none =>
              rw [hdj] at h1
              cases htj : ps.trusted.peek j with
              | some q =>
                rw [htj] at h1
                exact h1
              | none =>
                rw [htj] at h1
                exact Lru.peek_put_ne ps.pool id profile j p1 hj h1
    rw [h0] at hsame
    cases hsame
    exact Nat.le_refl _

/-- Claim C7, witness for the amended theorem: putting a strictly newer
profile (time 7) for the id stored with time 5 keeps the stored time
non-decreasing across that single call. -/
theorem profiles_put_monotonic_witness :
    (c7Store1.put 1 ⟨7⟩).2.stored 1 = some ⟨7⟩ ∧
      Profile.last_update ⟨5⟩ ≤ Profile.last_update ⟨7⟩ :=
  ⟨rfl, profiles_put_monotonic c7Store1 1 ⟨7⟩ 1 ⟨5⟩ ⟨7⟩ rfl rfl⟩

/-! ## Node bookkeeping (src/node.rs, src/logs.rs, src/policy.rs)

Times (`SystemTime`) are seconds as `Nat`; `elapsed()` is `now - t`,
well-defined (no panic) when `t ≤ now`.  Addresses, ids and topics are
`Nat`. -/

inductive StrikeReason where
  | cannotConnect
  | invalidPublicId
  | invalidData
deriving DecidableEq

structure Strike where
  when : Nat
  reason : StrikeReason
deriving DecidableEq

/-- `policy::Record`: the lifetime strike counter and the strike queue. -/
structure Record where
  lifetime_strikes : Nat
  strikes : List Strike
deriving DecidableEq

structure Logs where
  creation_time : Nat
  last_update : Nat
  last_gossip : Nat
  quarantined : Option Nat
  last_use_of : List (Nat × Nat)
deriving DecidableEq

structure NodeInfo where
  id : Nat
  address : Option Nat
deriving DecidableEq

structure NodeProfile where
  info : NodeInfo
  subscriptions : List (Nat × Nat)
deriving DecidableEq

structure Node where
  profile : NodeProfile
  address : Nat
  logs : Logs
  record : Record
deriving DecidableEq

inductive PolicyReport where
  | none
  | quarantine
  | liftQuarantine
  | forget
deriving DecidableEq

/-- `DEFAULT_QUARANTINE_DURATION = 30 min = 1800 s`. -/
def DEFAULT_QUARANTINE_DURATION : Nat := 1800

/-- `Record::is_clear`: the strike queue is empty. -/
def Record.is_clear (r : Record) : Bool := r.strikes.isEmpty

/-- `Record::clean_slate`: clear the strike queue (the lifetime counter is
kept). -/
def Record.clean_slate (r : Record) : Record := { r with strikes := [] }

inductive NodeAddress where
  | discoverable (address : Nat)
  | nonDiscoverable (address : Nat)
deriving DecidableEq

def NodeAddress.is_discoverable : NodeAddress → Bool
  | NodeAddress.discoverable _ => true
  | NodeAddress.nonDiscoverable _ => false

def NodeAddress.as_address : NodeAddress → Nat
  | NodeAddress.discoverable a => a
  | NodeAddress.nonDiscoverable a => a

/-- `Node::address()` (called `node_address` at its use sites): the profile
address when one is advertised (discoverable), otherwise the
transport-observed address. -/
def Node.node_address (n : Node) : NodeAddress :=
  match n.profile.info.address with
  | some a => NodeAddress.discoverable a
  | none => NodeAddress.nonDiscoverable n.address

/-- `DefaultPolicy::check`: the source mutates the node (only to clean the
strike queue on `LiftQuarantine`), so the embedding returns the report and
the node. -/
def default_policy_check (now : Nat) (node : Node) : PolicyReport × Node :=
  match node.logs.quarantined with
  | some since =>
    let duration := now - since
    let quarantine_duration := DEFAULT_QUARANTINE_DURATION * node.record.lifetime_strikes
    if duration < quarantine_duration then (PolicyReport.none, node)
    else if now - node.logs.last_update < quarantine_duration then
      (PolicyReport.liftQuarantine, { node with record := node.record.clean_slate })
    else (PolicyReport.forget, node)
  | none =>
    if node.record.is_clear then (PolicyReport.none, node)
    else (PolicyReport.quarantine, node)

/-! ### Claim C6 -/

/-- Claim C6: `DefaultPolicy::check` behaves exactly as specified.  With a
quarantine timestamp it returns `None` while the elapsed quarantine time
is below the deadline `lifetime_strikes × 30 min`, `LiftQuarantine` with
the strike queue cleared when the time since the last update is below
that deadline, and `Forget` otherwise; without a quarantine timestamp it
returns `None` on an empty strike queue and `Quarantine` otherwise. -/
theorem default_policy_check_spec (now : Nat) (node : Node)
    (_hupd : node.logs.last_update ≤ now) :
    (∀ since, node.logs.quarantined = some since → since ≤ now →
      ((now - since < DEFAULT_QUARANTINE_DURATION * node.record.lifetime_strikes →
        default_policy_check now node = (PolicyReport.none, node)) ∧
       (DEFAULT_QUARANTINE_DURATION * node.record.lifetime_strikes ≤ now - since →
        now - node.logs.last_update < DEFAULT_QUARANTINE_DURATION * node.record.lifetime_strikes →
        default_policy_check now node
          = (PolicyReport.liftQuarantine,
             { node with record := { node.record with strikes := [] } })) ∧
       (DEFAULT_QUARANTINE_DURATION * node.record.lifetime_strikes ≤ now - since →
        DEFAULT_QUARANTINE_DURATION * node.record.lifetime_strikes ≤ now - node.logs.last_update →
        default_policy_check now node = (PolicyReport.forget, node)))) ∧
    (node.logs.quarantined = none →
      ((node.record.strikes = [] → default_policy_check now node = (PolicyReport.none, node)) ∧
       (node.record.strikes ≠ [] →
        default_policy_check now node = (PolicyReport.quarantine, node)))) := by
  constructor
  · intro since hq hsince
    refine ⟨?_, ?_, ?_⟩
    · intro h
      simp [default_policy_check, hq, h]
    · intro h1 h2
      simp [default_policy_check, hq, Nat.not_lt.mpr h1, h2, Record.clean_slate]
    · intro h1 h2
      simp [default_policy_check, hq, Nat.not_lt.mpr h1, Nat.not_lt.mpr h2]
  · intro hq
    constructor
    · intro h
      simp [default_policy_check, hq, Record.is_clear, h]
    · intro h
      simp [default_policy_check, hq, Record.is_clear, h]

/-- A concrete node for the C6 witness: quarantined since 0 with one
lifetime strike. -/
def c6Node : Node :=
  ⟨⟨⟨1, some 9⟩, []⟩, 9, ⟨0, 0, 0, some 0, []⟩, ⟨1, [⟨0, StrikeReason.cannotConnect⟩]⟩⟩

/-- Claim C6, witness: at `now = 100` the node quarantined since 0 with
deadline 1800 still waits (`None`). -/
theorem default_policy_check_spec_witness :
    default_policy_check 100 c6Node = (PolicyReport.none, c6Node) :=
  (((default_policy_check_spec 100 c6Node (by decide)).1 0 rfl (by decide)).1 (by decide))

/-! ## Membership store (src/nodes.rs)

The `HashSet<Address>` buckets are lists (insertion guarded by
membership, removal by filtering). -/

/-- `HashSet::insert`. -/
def setInsert (s : List Nat) (a : Nat) : List Nat := if a ∈ s then s else a :: s

/-- `HashSet::remove`. -/
def setRemove (s : List Nat) (a : Nat) : List Nat := s.filter (fun x => decide (x ≠ a))

/-- `LruCache::iter_mut` updating the value stored at one key in place
(no recency change). -/
def Lru.setValue {α : Type} (c : Lru α) (k : Nat) (v : α) : Lru α :=
  ⟨c.entries.map (fun e => if e.1 = k then (k, v) else e), c.cap⟩

structure Nodes where
  all : Lru Node
  quarantined : List Nat
  not_reachable : List Nat
  available : List Nat

/-- `Nodes::new(cap)`. -/
def Nodes.new (cap : Nat) : Nodes := ⟨⟨[], cap⟩, [], [], []⟩

/-- `Nodes::insert`: bucket the address by discoverability, then
`self.all.put(address, node)` (which evicts the least-recently-used entry
when the LRU is at capacity — without unbucketing it). -/
def Nodes.insert (s : Nodes) (node : Node) : Nodes :=
  match node.node_address with
  | NodeAddress.discoverable address =>
    { s with available := setInsert s.available address, all := s.all.put address node }
  | NodeAddress.nonDiscoverable address =>
    { s with not_reachable := setInsert s.not_reachable address, all := s.all.put address node }

/-- `Nodes::entry` followed by `Entry::or_insert`: inserts only when the
key (the node's bucket address) is vacant. -/
def Nodes.entry_or_insert (s : Nodes) (node : Node) : Nodes :=
  if s.all.containsKey node.node_address.as_address then s else s.insert node

/-- `Nodes::entry` followed by `Entry::and_modify` with the default policy:
`get_mut` touches the entry, `f` mutates the node, the policy is re-run
and the peer is re-classified according to the report. -/
def Nodes.modify (s : Nodes) (id : Nat) (f : Node → Node) (now : Nat) : Nodes :=
  match s.all.entries.lookup id with
  | none => s
  | some node0 =>
    let all1 : Lru Node :=
      ⟨(id, node0) :: s.all.entries.eraseP (fun e => e.1 == id), s.all.cap⟩
    let was_reachable := node0.node_address.is_discoverable
    let node1 := f node0
    let rn := default_policy_check now node1
    match rn.1 with
    | PolicyReport.none =>
      let now_reachable := rn.2.node_address.is_discoverable
      let s1 := { s with all := all1.setValue id rn.2 }
      if was_reachable && !now_reachable then
        if id ∈ s.available then
          { s1 with available := setRemove s.available id,
                    not_reachable := setInsert s.not_reachable id }
        else s1
      else if !was_reachable && now_reachable then
        if id ∈ s.not_reachable then
          { s1 with not_reachable := setRemove s.not_reachable id,
                    available := setInsert s.available id }
        else s1
      else s1
    | PolicyReport.forget =>
      { all := (all1.setValue id rn.2).popKey id,
        available := setRemove s.available id,
        not_reachable := setRemove s.not_reachable id,
        quarantined := setRemove s.quarantined id }
    | PolicyReport.quarantine =>
      let node3 := { rn.2 with logs := { rn.2.logs with quarantined := some now } }
      { all := all1.setValue id node3,
        available := setRemove s.available id,
        not_reachable := setRemove s.not_reachable id,
        quarantined := setInsert s.quarantined id }
    | PolicyReport.liftQuarantine =>
      let node3 := { rn.2 with logs := { rn.2.logs with quarantined := none } }
      { all := all1.setValue id node3,
        available :=
          if rn.2.node_address.is_discoverable then setInsert s.available id else s.available,
        not_reachable :=
          if rn.2.node_address.is_discoverable then s.not_reachable
          else setInsert s.not_reachable id,
        quarantined := setRemove s.quarantined id }

/-- One iteration of the `Nodes::reset` walk: re-run the policy on a node
and apply the report (`Forget` only unbuckets and defers the LRU removal
to the `to_remove` list). -/
def Nodes.reset_step (now : Nat) (acc : Nodes × List Nat) (kn : Nat × Node) :
    Nodes × List Nat :=
  let cur := acc.1
  let to_remove := acc.2
  let rn := default_policy_check now kn.2
  match rn.1 with
  | PolicyReport.none => ({ cur with all := cur.all.setValue kn.1 rn.2 }, to_remove)
  | PolicyReport.forget =>
    ({ cur with available := setRemove cur.available kn.1,
                not_reachable := setRemove cur.not_reachable kn.1,
                quarantined := setRemove cur.quarantined kn.1 },
     to_remove ++ [kn.1])
  | PolicyReport.quarantine =>
    let node3 := { rn.2 with logs := { rn.2.logs with quarantined := some now } }
    ({ cur with available := setRemove cur.available kn.1,
                not_reachable := setRemove cur.not_reachable kn.1,
                quarantined := setInsert cur.quarantined kn.1,
                all := cur.all.setValue kn.1 node3 },
     to_remove)
  | PolicyReport.liftQuarantine =>
    let node3 := { rn.2 with logs := { rn.2.logs with quarantined := none } }
    ({ cur with
        available :=
          (if rn.2.node_address.is_discoverable then setInsert cur.available kn.1
           else cur.available),
        not_reachable :=
          (if rn.2.node_address.is_discoverable then cur.not_reachable
           else setInsert cur.not_reachable kn.1),
        quarantined := setRemove cur.quarantined kn.1,
        all := cur.all.setValue kn.1 node3 },
     to_remove)

/-- `Nodes::reset`: walk every peer applying the policy report, then pop
the forgotten keys from the LRU. -/
def Nodes.reset (s : Nodes) (now : Nat) : Nodes :=
  let folded := s.all.entries.foldl (Nodes.reset_step now) (s, [])
  folded.2.foldl (fun st k => { st with all := st.all.popKey k }) folded.1

/-- The membership-store operations of the claim. -/
inductive NodesOp where
  | insertNode (node : Node)
  | modifyNode (id : Nat) (f : Node → Node) (now : Nat)
  | resetNodes (now : Nat)

def Nodes.apply (s : Nodes) : NodesOp → Nodes
  | NodesOp.insertNode node => s.entry_or_insert node
  | NodesOp.modifyNode id f now => s.modify id f now
  | NodesOp.resetNodes now => s.reset now

def Nodes.applyAll (s : Nodes) (ops : List NodesOp) : Nodes :=
  ops.foldl Nodes.apply s

def nodesKeys (s : Nodes) : List Nat := s.all.entries.map Prod.fst

/-- The three bucket sets are pairwise disjoint. -/
def BucketsDisjoint (s : Nodes) : Prop :=
  (∀ a ∈ s.available, a ∉ s.not_reachable ∧ a ∉ s.quarantined) ∧
  (∀ a ∈ s.not_reachable, a ∉ s.quarantined)

/-- The union of the three bucket sets equals the key set of the LRU. -/
def BucketsMatchKeys (s : Nodes) : Prop :=
  ∀ a, (a ∈ s.available ∨ a ∈ s.not_reachable ∨ a ∈ s.quarantined) ↔ a ∈ nodesKeys s

/-! ### Claim C4, counterexample -/

/-- A discoverable node advertising address `a`. -/
def discNode (a : Nat) : Node := ⟨⟨⟨a, some a⟩, []⟩, a, ⟨0, 0, 0, none, []⟩, ⟨0, []⟩⟩

/-- Two inserts into a store of capacity 1: the second evicts the first
from the LRU but not from its bucket. -/
def c4State : Nodes :=
  Nodes.applyAll (Nodes.new 1)
    [NodesOp.insertNode (discNode 1), NodesOp.insertNode (discNode 2)]

/-- Claim C4, counterexample: after inserting a second peer while the LRU
of capacity 1 is full, the evicted address 1 is still in `available` but
no longer a key of the LRU — the bucket union is not the LRU key set. -/
theorem nodes_insert_at_capacity_counterexample :
    1 ∈ c4State.available ∧ 1 ∉ nodesKeys c4State ∧ ¬ BucketsMatchKeys c4State := by
  refine ⟨by decide, by decide, fun h => ?_⟩
  have h1 : (1 : Nat) ∈ nodesKeys c4State := (h 1).mp (Or.inl (by decide))
  exact absurd h1 (by decide)

/-! ### Claim C4, helper lemmas -/

theorem lookup_eq_none_iff {α : Type} (l : List (Nat × α)) (k : Nat) :
    l.lookup k = none ↔ k ∉ l.map Prod.fst := by
  induction l with
  | nil => simp [List.lookup]
  | cons e rest ih =>
    by_cases h : k = e.1
    · simp [List.lookup, h]
    · have hje : (k == e.1) = false := by simp [h]
      simp [List.lookup, hje, ih, h, fun hh : e.1 = k => h hh.symm]

theorem mem_keys_of_lookup {α : Type} (l : List (Nat × α)) (k : Nat) (v : α)
    (h : l.lookup k = some v) : k ∈ l.map Prod.fst := by
  by_contra hmem
  rw [← lookup_eq_none_iff] at hmem
  rw [h] at hmem
  exact absurd hmem (by simp)

theorem lookup_of_mem_nodup {α : Type} (l : List (Nat × α)) (k : Nat) (v : α)
    (hnd : (l.map Prod.fst).Nodup) (hmem : (k, v) ∈ l) : l.lookup k = some v := by
  induction l with
  | nil => cases hmem
  | cons e rest ih =>
    have hnd2 : e.1 ∉ rest.map Prod.fst ∧ (rest.map Prod.fst).Nodup := by
      rw [List.map_cons, List.nodup_cons] at hnd
      exact hnd
    rcases List.mem_cons.mp hmem with rfl | hmem2
    · simp [List.lookup]
    · have hk : k ∈ rest.map Prod.fst := List.mem_map_of_mem Prod.fst hmem2
      have hne : (k == e.1) = false := by
        simp only [beq_eq_false_iff_ne, ne_eq]
        intro hh
        exact hnd2.1 (hh ▸ hk)
      rw [List.lookup, hne]
      exact ih hnd2.2 hmem2

theorem keys_eraseKey_subset {α : Type} (l : List (Nat × α)) (k b : Nat)
    (hb : b ∈ (l.eraseP (fun e => e.1 == k)).map Prod.fst) : b ∈ l.map Prod.fst :=
  ((l.eraseP_sublist (p := fun e => e.1 == k)).map Prod.fst).subset hb

theorem nodup_keys_eraseKey {α : Type} (l : List (Nat × α)) (k : Nat)
    (h : (l.map Prod.fst).Nodup) :
    ((l.eraseP (fun e => e.1 == k)).map Prod.fst).Nodup :=
  List.Nodup.sublist ((l.eraseP_sublist (p := fun e => e.1 == k)).map Prod.fst) h

theorem not_mem_keys_eraseKey_self {α : Type} (l : List (Nat × α)) (k : Nat)
    (h : (l.map Prod.fst).Nodup) :
    k ∉ (l.eraseP (fun e => e.1 == k)).map Prod.fst := by
  induction l with
  | nil => simp
  | cons e rest ih =>
    have hnd2 : e.1 ∉ rest.map Prod.fst ∧ (rest.map Prod.fst).Nodup := by
      rw [List.map_cons, List.nodup_cons] at h
      exact h
    rw [List.eraseP_cons]
    by_cases he : e.1 = k
    · have hb : (e.1 == k) = true := by simp [he]
      simp only [hb, cond_true]
      subst he
      exact hnd2.1
    · have hb : (e.1 == k) = false := by simp [he]
      simp only [hb, cond_false, List.map_cons, List.mem_cons]
      push_neg
      exact ⟨fun hk => he hk.symm, ih hnd2.2⟩

theorem mem_keys_eraseKey_ne {α : Type} (l : List (Nat × α)) (k b : Nat)
    (hne : b ≠ k) (hb : b ∈ l.map Prod.fst) :
    b ∈ (l.eraseP (fun e => e.1 == k)).map Prod.fst := by
  induction l with
  | nil => simp at hb
  | cons e rest ih =>
    rw [List.eraseP_cons]
    rcases List.mem_cons.mp (by simpa using hb : b ∈ e.1 :: rest.map Prod.fst) with h1 | h1
    · by_cases he : e.1 = k
      · exact absurd (h1.trans he) hne
      · have hbq : (e.1 == k) = false := by simp [he]
        simp [hbq, h1]
    · by_cases he : e.1 = k
      · have hbq : (e.1 == k) = true := by simp [he]
        simpa [hbq] using h1
      · have hbq : (e.1 == k) = false := by simp [he]
        simp only [hbq, cond_false, List.map_cons, List.mem_cons]
        exact Or.inr (ih h1)

theorem keys_map_setValue {α : Type} (l : List (Nat × α)) (k : Nat) (v : α) :
    (l.map (fun e => if e.1 = k then (k, v) else e)).map Prod.fst = l.map Prod.fst := by
  induction l with
  | nil => rfl
  | cons e rest ih =>
    by_cases h : e.1 = k <;> simp [h, ih]

theorem lookup_map_setValue_ne {α : Type} (l : List (Nat × α)) (k : Nat) (v : α) (j : Nat)
    (hne : j ≠ k) :
    (l.map (fun e => if e.1 = k then (k, v) else e)).lookup j = l.lookup j := by
  induction l with
  | nil => rfl
  | cons e rest ih =>
    simp only [List.map_cons]
    by_cases h : e.1 = k
    · rw [if_pos h]
      have hje : (j == k) = false := by simp [hne]
      have hje2 : (j == e.1) = false := by rw [h]; exact hje
      simp [List.lookup, hje, hje2, ih]
    · rw [if_neg h]
      by_cases hj : j = e.1
      · simp [List.lookup, hj]
      · have hje : (j == e.1) = false := by simp [hj]
        simp [List.lookup, hje, ih]

theorem lookup_map_setValue_self {α : Type} (l : List (Nat × α)) (k : Nat) (v : α) :
    (l.map (fun e => if e.1 = k then (k, v) else e)).lookup k
      = (l.lookup k).map (fun _ => v) := by
  induction l with
  | nil => rfl
  | cons e rest ih =>
    simp only [List.map_cons]
    by_cases h : e.1 = k
    · rw [if_pos h]
      have hke : (k == e.1) = true := by simp [h]
      simp [List.lookup, hke, h]
    · rw [if_neg h]
      have hke : (k == e.1) = false := by
        rw [beq_eq_false_iff_ne]
        exact fun hh => h hh.symm
      simp [List.lookup, hke, ih]

theorem mem_setInsert (s : List Nat) (a b : Nat) :
    b ∈ setInsert s a ↔ b = a ∨ b ∈ s := by
  unfold setInsert
  by_cases h : a ∈ s
  · rw [if_pos h]
    exact ⟨Or.inr, fun x => x.elim (fun hb => hb ▸ h) id⟩
  · rw [if_neg h]
    simp

theorem mem_setRemove (s : List Nat) (a b : Nat) :
    b ∈ setRemove s a ↔ b ∈ s ∧ b ≠ a := by
  unfold setRemove
  simp [List.mem_filter]

theorem default_policy_check_logs (now : Nat) (n : Node) :
    (default_policy_check now n).2.logs = n.logs := by
  unfold default_policy_check
  split
  · dsimp only
    split_ifs <;> rfl
  · split_ifs <;> rfl

theorem default_policy_check_lift_isSome (now : Nat) (n : Node)
    (h : (default_policy_check now n).1 = PolicyReport.liftQuarantine) :
    n.logs.quarantined.isSome := by
  unfold default_policy_check at h
  split at h
  · rename_i since heq
    simp [heq]
  · split_ifs at h

/-- Every LRU key's node agrees with the `quarantined` bucket: a stored
node has a quarantine timestamp exactly when its key is in the bucket. -/
def QuarantineCoupled (s : Nodes) : Prop :=
  ∀ a node, s.all.entries.lookup a = some node →
    (a ∈ s.quarantined ↔ node.logs.quarantined.isSome)

/-- The inductive invariant of the membership store. -/
def NodesInv (s : Nodes) : Prop :=
  (nodesKeys s).Nodup ∧ BucketsDisjoint s ∧ BucketsMatchKeys s ∧ QuarantineCoupled s

/-- The conditions under which an operation is benign: inserts happen
below capacity with nodes that carry no quarantine timestamp (as
`Topology` produces them), and modification closures do not fabricate or
erase quarantine timestamps (the public `Node` API only exposes the
strike record for mutation). -/
def okOp (s : Nodes) : NodesOp → Prop
  | NodesOp.insertNode node => node.logs.quarantined = none ∧ s.all.len < s.all.cap
  | NodesOp.modifyNode _ f _ => ∀ n, (f n).logs.quarantined = n.logs.quarantined
  | NodesOp.resetNodes _ => True

def okSeq : Nodes → List NodesOp → Prop
  | _, [] => True
  | s, op :: ops => okOp s op ∧ okSeq (s.apply op) ops

theorem nodes_insert_inv (s : Nodes) (node : Node)
    (hinv : NodesInv s) (hq : node.logs.quarantined = none)
    (hcap : s.all.len < s.all.cap) :
    NodesInv (s.entry_or_insert node) := by
  obtain ⟨hnd, hdisj, hmatch, hcoup⟩ := hinv
  unfold Nodes.entry_or_insert
  by_cases hc : s.all.containsKey node.node_address.as_address
  · rw [if_pos hc]
    exact ⟨hnd, hdisj, hmatch, hcoup⟩
  · rw [if_neg hc]
    have hlk : s.all.entries.lookup node.node_address.as_address = none := by
      unfold Lru.containsKey at hc
      cases h : s.all.entries.lookup node.node_address.as_address with
      | none => rfl
      | some v => rw [h] at hc; simp at hc
    have hput : ∀ v : Node, (s.all.put node.node_address.as_address v).entries
        = (node.node_address.as_address, v) :: s.all.entries := by
      intro v
      unfold Lru.put
      rw [if_neg (by rw [hlk]; simp), if_neg (by
        unfold Lru.len at hcap
        omega)]
    have hkey : node.node_address.as_address ∉ nodesKeys s :=
      (lookup_eq_none_iff _ _).mp hlk
    unfold Nodes.insert
    cases ha : node.node_address with
    | discoverable address =>
      have haddr : node.node_address.as_address = address := by rw [ha]; rfl
      rw [haddr] at hput hkey
      have hanr : address ∉ s.not_reachable := fun hm =>
        hkey ((hmatch address).mp (Or.inr (Or.inl hm)))
      have haq : address ∉ s.quarantined := fun hm =>
        hkey ((hmatch address).mp (Or.inr (Or.inr hm)))
      refine ⟨?_, ⟨?_, ?_⟩, ?_, ?_⟩
      · show ((s.all.put address node).entries.map Prod.fst).Nodup
        rw [hput node, List.map_cons, List.nodup_cons]
        exact ⟨hkey, hnd⟩
      · intro a hmem
        rcases (mem_setInsert _ _ _).mp hmem with rfl | hmem2
        · exact ⟨hanr, haq⟩
        · exact hdisj.1 a hmem2
      · exact hdisj.2
      · intro b
        show (b ∈ setInsert s.available address ∨ b ∈ s.not_reachable ∨ b ∈ s.quarantined)
          ↔ b ∈ (s.all.put address node).entries.map Prod.fst
        rw [hput node, List.map_cons, List.mem_cons]
        constructor
        · rintro (hb | hb | hb)
          · rcases (mem_setInsert _ _ _).mp hb with rfl | hb2
            · exact Or.inl rfl
            · exact Or.inr ((hmatch b).mp (Or.inl hb2))
          · exact Or.inr ((hmatch b).mp (Or.inr (Or.inl hb)))
          · exact Or.inr ((hmatch b).mp (Or.inr (Or.inr hb)))
        · rintro (rfl | hb)
          · exact Or.inl ((mem_setInsert _ _ _).mpr (Or.inl rfl))
          · rcases (hmatch b).mpr hb with hb2 | hb2 | hb2
            · exact Or.inl ((mem_setInsert _ _ _).mpr (Or.inr hb2))
            · exact Or.inr (Or.inl hb2)
            · exact Or.inr (Or.inr hb2)
      · intro b nb hb
        show b ∈ s.quarantined ↔ nb.logs.quarantined.isSome
        rw [hput node] at hb
        by_cases hbid : b = address
        · subst hbid
          have hbe : (b == b) = true := by simp
          simp only [List.lookup, hbe, Option.some.injEq] at hb
          subst hb
          rw [hq]
          simp [haq]
        · have hbe : (b == address) = false := by simp [hbid]
          simp only [List.lookup, hbe] at hb
          exact hcoup b nb hb
    | nonDiscoverable address =>
      have haddr : node.node_address.as_address = address := by rw [ha]; rfl
      rw [haddr] at hput hkey
      have haav : address ∉ s.available := fun hm =>
        hkey ((hmatch address).mp (Or.inl hm))
      have haq : address ∉ s.quarantined := fun hm =>
        hkey ((hmatch address).mp (Or.inr (Or.inr hm)))
      refine ⟨?_, ⟨?_, ?_⟩, ?_, ?_⟩
      · show ((s.all.put address node).entries.map Prod.fst).Nodup
        rw [hput node, List.map_cons, List.nodup_cons]
        exact ⟨hkey, hnd⟩
      · intro a hmem
        refine ⟨fun hm => ?_, (hdisj.1 a hmem).2⟩
        rcases (mem_setInsert _ _ _).mp hm with rfl | hm2
        · exact haav hmem
        · exact (hdisj.1 a hmem).1 hm2
      · intro a hmem
        rcases (mem_setInsert _ _ _).mp hmem with rfl | hm2
        · exact haq
        · exact hdisj.2 a hm2
      · intro b
        show (b ∈ s.available ∨ b ∈ setInsert s.not_reachable address ∨ b ∈ s.quarantined)
          ↔ b ∈ (s.all.put address node).entries.map Prod.fst
        rw [hput node, List.map_cons, List.mem_cons]
        constructor
        · rintro (hb | hb | hb)
          · exact Or.inr ((hmatch b).mp (Or.inl hb))
          · rcases (mem_setInsert _ _ _).mp hb with rfl | hb2
            · exact Or.inl rfl
            · exact Or.inr ((hmatch b).mp (Or.inr (Or.inl hb2)))
          · exact Or.inr ((hmatch b).mp (Or.inr (Or.inr hb)))
        · rintro (rfl | hb)
          · exact Or.inr (Or.inl ((mem_setInsert _ _ _).mpr (Or.inl rfl)))
          · rcases (hmatch b).mpr hb with hb2 | hb2 | hb2
            · exact Or.inl hb2
            · exact Or.inr (Or.inl ((mem_setInsert _ _ _).mpr (Or.inr hb2)))
            · exact Or.inr (Or.inr hb2)
      · intro b nb hb
        show b ∈ s.quarantined ↔ nb.logs.quarantined.isSome
        rw [hput node] at hb
        by_cases hbid : b = address
        · subst hbid
          have hbe : (b == b) = true := by simp
          simp only [List.lookup, hbe, Option.some.injEq] at hb
          subst hb
          rw [hq]
          simp [haq]
        · have hbe : (b == address) = false := by simp [hbid]
          simp only [List.lookup, hbe] at hb
          exact hcoup b nb hb

theorem nodes_modify_inv (s : Nodes) (id : Nat) (f : Node → Node) (now : Nat)
    (hinv : NodesInv s) (hf : ∀ n, (f n).logs.quarantined = n.logs.quarantined) :
    NodesInv (s.modify id f now) := by
  obtain ⟨hnd, hdisj, hmatch, hcoup⟩ := hinv
  unfold Nodes.modify
  cases hlk : s.all.entries.lookup id with
  | none => exact ⟨hnd, hdisj, hmatch, hcoup⟩
  | some node0 =>
    dsimp only
    have hidkeys : id ∈ nodesKeys s := mem_keys_of_lookup _ _ _ hlk
    have hSV : ∀ v : Node,
        ((((id, node0) :: s.all.entries.eraseP (fun e => e.1 == id)).map
            (fun e => if e.1 = id then (id, v) else e)).map Prod.fst).Nodup ∧
        (∀ b, b ∈ (((id, node0) :: s.all.entries.eraseP (fun e => e.1 == id)).map
            (fun e => if e.1 = id then (id, v) else e)).map Prod.fst ↔ b ∈ nodesKeys s) ∧
        (((id, node0) :: s.all.entries.eraseP (fun e => e.1 == id)).map
            (fun e => if e.1 = id then (id, v) else e)).lookup id = some v ∧
        (∀ b, b ≠ id → (((id, node0) :: s.all.entries.eraseP (fun e => e.1 == id)).map
            (fun e => if e.1 = id then (id, v) else e)).lookup b
          = s.all.entries.lookup b) := by
      intro v
      have hnd1 : (((id, node0) :: s.all.entries.eraseP (fun e => e.1 == id)).map
          Prod.fst).Nodup := by
        rw [List.map_cons, List.nodup_cons]
        exact ⟨not_mem_keys_eraseKey_self _ _ hnd, nodup_keys_eraseKey _ _ hnd⟩
      have hkeq := keys_map_setValue ((id, node0) :: s.all.entries.eraseP (fun e => e.1 == id)) id v
      refine ⟨by rw [hkeq]; exact hnd1, ?_, ?_, ?_⟩
      · intro b
        rw [hkeq, List.map_cons, List.mem_cons]
        constructor
        · rintro (rfl | hb)
          · exact hidkeys
          · exact keys_eraseKey_subset _ _ _ hb
        · intro hb
          by_cases hbid : b = id
          · exact Or.inl hbid
          · exact Or.inr (mem_keys_eraseKey_ne _ _ _ hbid hb)
      · rw [lookup_map_setValue_self]
        have hbe : (id == id) = true := by simp
        simp [List.lookup, hbe]
      · intro b hb
        rw [lookup_map_setValue_ne _ _ _ _ hb]
        have hbe : (b == id) = false := by simp [hb]
        simp only [List.lookup, hbe]
        exact lookup_eraseKey_ne _ _ _ hb
    have hlogq : (default_policy_check now (f node0)).2.logs.quarantined
        = node0.logs.quarantined := by
      rw [default_policy_check_logs]
      exact hf node0
    cases hrep : (default_policy_check now (f node0)).1 with
    | none =>
      dsimp only [Lru.setValue, Lru.popKey]
      obtain ⟨hndv, hkeysv, hlkself, hlkne⟩ := hSV (default_policy_check now (f node0)).2
      have hs1 : NodesInv { s with all :=
          (Lru.setValue ⟨(id, node0) :: s.all.entries.eraseP (fun e => e.1 == id), s.all.cap⟩
            id (default_policy_check now (f node0)).2) } := by
        refine ⟨hndv, hdisj, ?_, ?_⟩
        · intro b
          exact (hmatch b).trans (hkeysv b).symm
        · intro b nb hb
          simp only [Lru.setValue, Lru.popKey] at hb
          by_cases hbid : b = id
          · subst hbid
            rw [hlkself] at hb
            cases hb
            show b ∈ s.quarantined ↔ _
            rw [hlogq]
            exact hcoup b node0 hlk
          · rw [hlkne b hbid] at hb
            exact hcoup b nb hb
      split_ifs with h1 h2 h3 h4
      · -- discoverable became unreachable and id was in available
        have hidnr : id ∉ s.not_reachable := (hdisj.1 id h2).1
        have hidq : id ∉ s.quarantined := (hdisj.1 id h2).2
        refine ⟨hndv, ⟨?_, ?_⟩, ?_, ?_⟩
        · intro a hmem
          obtain ⟨ha, hane⟩ := (mem_setRemove _ _ _).mp hmem
          refine ⟨fun hm => ?_, (hdisj.1 a ha).2⟩
          rcases (mem_setInsert _ _ _).mp hm with rfl | hm2
          · exact hane rfl
          · exact (hdisj.1 a ha).1 hm2
        · intro a hmem
          rcases (mem_setInsert _ _ _).mp hmem with rfl | hm2
          · exact hidq
          · exact hdisj.2 a hm2
        · intro b
          refine Iff.trans ?_ (hkeysv b).symm
          constructor
          · rintro (hb | hb | hb)
            · exact (hmatch b).mp (Or.inl ((mem_setRemove _ _ _).mp hb).1)
            · rcases (mem_setInsert _ _ _).mp hb with rfl | hb2
              · exact hidkeys
              · exact (hmatch b).mp (Or.inr (Or.inl hb2))
            · exact (hmatch b).mp (Or.inr (Or.inr hb))
          · intro hb
            by_cases hbid : b = id
            · subst hbid
              exact Or.inr (Or.inl ((mem_setInsert _ _ _).mpr (Or.inl rfl)))
            · rcases (hmatch b).mpr hb with hb2 | hb2 | hb2
              · exact Or.inl ((mem_setRemove _ _ _).mpr ⟨hb2, hbid⟩)
              · exact Or.inr (Or.inl ((mem_setInsert _ _ _).mpr (Or.inr hb2)))
              · exact Or.inr (Or.inr hb2)
        · intro b nb hb
          simp only [Lru.setValue, Lru.popKey] at hb
          by_cases hbid : b = id
          · subst hbid
            rw [hlkself] at hb
            cases hb
            show b ∈ s.quarantined ↔ _
            rw [hlogq]
            exact hcoup b node0 hlk
          · rw [hlkne b hbid] at hb
            exact hcoup b nb hb
      · exact hs1
      · -- unreachable became discoverable and id was in not_reachable
        have hidq : id ∉ s.quarantined := hdisj.2 id h4
        have hidav : id ∉ s.available := fun h => (hdisj.1 id h).1 h4
        refine ⟨hndv, ⟨?_, ?_⟩, ?_, ?_⟩
        · intro a hmem
          rcases (mem_setInsert _ _ _).mp hmem with rfl | hm2
          · constructor
            · intro hm
              exact ((mem_setRemove _ _ _).mp hm).2 rfl
            · exact hidq
          · exact ⟨fun hm => (hdisj.1 a hm2).1 ((mem_setRemove _ _ _).mp hm).1,
              (hdisj.1 a hm2).2⟩
        · intro a hmem
          exact hdisj.2 a ((mem_setRemove _ _ _).mp hmem).1
        · intro b
          refine Iff.trans ?_ (hkeysv b).symm
          constructor
          · rintro (hb | hb | hb)
            · rcases (mem_setInsert _ _ _).mp hb with rfl | hb2
              · exact hidkeys
              · exact (hmatch b).mp (Or.inl hb2)
            · exact (hmatch b).mp (Or.inr (Or.inl ((mem_setRemove _ _ _).mp hb).1))
            · exact (hmatch b).mp (Or.inr (Or.inr hb))
          · intro hb
            by_cases hbid : b = id
            · subst hbid
              exact Or.inl ((mem_setInsert _ _ _).mpr (Or.inl rfl))
            · rcases (hmatch b).mpr hb with hb2 | hb2 | hb2
              · exact Or.inl ((mem_setInsert _ _ _).mpr (Or.inr hb2))
              · exact Or.inr (Or.inl ((mem_setRemove _ _ _).mpr ⟨hb2, hbid⟩))
              · exact Or.inr (Or.inr hb2)
        · intro b nb hb
          simp only [Lru.setValue, Lru.popKey] at hb
          by_cases hbid : b = id
          · subst hbid
            rw [hlkself] at hb
            cases hb
            show b ∈ s.quarantined ↔ _
            rw [hlogq]
            exact hcoup b node0 hlk
          · rw [hlkne b hbid] at hb
            exact hcoup b nb hb
      · exact hs1
      · exact hs1
    | forget =>
      dsimp only [Lru.setValue, Lru.popKey]
      obtain ⟨hndv, hkeysv, hlkself, hlkne⟩ := hSV (default_policy_check now (f node0)).2
      have hkeysF : ∀ b, b ∈ ((((id, node0) :: s.all.entries.eraseP (fun e => e.1 == id)).map
          (fun e => if e.1 = id then (id, (default_policy_check now (f node0)).2) else e)).eraseP
            (fun e => e.1 == id)).map Prod.fst ↔ b ∈ nodesKeys s ∧ b ≠ id := by
        intro b
        constructor
        · intro hb
          have hbid : b ≠ id := by
            intro hbeq
            subst hbeq
            exact not_mem_keys_eraseKey_self _ _ hndv hb
          exact ⟨(hkeysv b).mp (keys_eraseKey_subset _ _ _ hb), hbid⟩
        · rintro ⟨hb, hbid⟩
          exact mem_keys_eraseKey_ne _ _ _ hbid ((hkeysv b).mpr hb)
      refine ⟨?_, ⟨?_, ?_⟩, ?_, ?_⟩
      · exact nodup_keys_eraseKey _ _ hndv
      · intro a hmem
        obtain ⟨ha, hane⟩ := (mem_setRemove _ _ _).mp hmem
        exact ⟨fun hm => (hdisj.1 a ha).1 ((mem_setRemove _ _ _).mp hm).1,
          fun hm => (hdisj.1 a ha).2 ((mem_setRemove _ _ _).mp hm).1⟩
      · intro a hmem
        exact fun hm => hdisj.2 a ((mem_setRemove _ _ _).mp hmem).1
          ((mem_setRemove _ _ _).mp hm).1
      · intro b
        refine Iff.trans ?_ (hkeysF b).symm
        constructor
        · rintro (hb | hb | hb)
          · obtain ⟨hb2, hbne⟩ := (mem_setRemove _ _ _).mp hb
            exact ⟨(hmatch b).mp (Or.inl hb2), hbne⟩
          · obtain ⟨hb2, hbne⟩ := (mem_setRemove _ _ _).mp hb
            exact ⟨(hmatch b).mp (Or.inr (Or.inl hb2)), hbne⟩
          · obtain ⟨hb2, hbne⟩ := (mem_setRemove _ _ _).mp hb
            exact ⟨(hmatch b).mp (Or.inr (Or.inr hb2)), hbne⟩
        · rintro ⟨hb, hbid⟩
          rcases (hmatch b).mpr hb with hb2 | hb2 | hb2
          · exact Or.inl ((mem_setRemove _ _ _).mpr ⟨hb2, hbid⟩)
          · exact Or.inr (Or.inl ((mem_setRemove _ _ _).mpr ⟨hb2, hbid⟩))
          · exact Or.inr (Or.inr ((mem_setRemove _ _ _).mpr ⟨hb2, hbid⟩))
      · intro b nb hb
        simp only [Lru.setValue, Lru.popKey] at hb
        by_cases hbid : b = id
        · subst hbid
          have hnone : ((((b, node0) :: s.all.entries.eraseP (fun e => e.1 == b)).map
              (fun e => if e.1 = b then (b, (default_policy_check now (f node0)).2) else e)).eraseP
                (fun e => e.1 == b)).lookup b = none :=
            (lookup_eq_none_iff _ _).mpr (not_mem_keys_eraseKey_self _ _ hndv)
          rw [hnone] at hb
          cases hb
        · rw [lookup_eraseKey_ne _ _ _ hbid, hlkne b hbid] at hb
          constructor
          · intro hm
            exact (hcoup b nb hb).mp ((mem_setRemove _ _ _).mp hm).1
          · intro hm
            exact (mem_setRemove _ _ _).mpr ⟨(hcoup b nb hb).mpr hm, hbid⟩
    | quarantine =>
      dsimp only [Lru.setValue, Lru.popKey]
      obtain ⟨hndv, hkeysv, hlkself, hlkne⟩ :=
        hSV { (default_policy_check now (f node0)).2 with
              logs := { (default_policy_check now (f node0)).2.logs with quarantined := some now } }
      refine ⟨hndv, ⟨?_, ?_⟩, ?_, ?_⟩
      · intro a hmem
        obtain ⟨ha, hane⟩ := (mem_setRemove _ _ _).mp hmem
        refine ⟨fun hm => (hdisj.1 a ha).1 ((mem_setRemove _ _ _).mp hm).1, fun hm => ?_⟩
        rcases (mem_setInsert _ _ _).mp hm with rfl | hm2
        · exact hane rfl
        · exact (hdisj.1 a ha).2 hm2
      · intro a hmem
        obtain ⟨ha, hane⟩ := (mem_setRemove _ _ _).mp hmem
        intro hm
        rcases (mem_setInsert _ _ _).mp hm with rfl | hm2
        · exact hane rfl
        · exact hdisj.2 a ha hm2
      · intro b
        refine Iff.trans ?_ (hkeysv b).symm
        constructor
        · rintro (hb | hb | hb)
          · exact (hmatch b).mp (Or.inl ((mem_setRemove _ _ _).mp hb).1)
          · exact (hmatch b).mp (Or.inr (Or.inl ((mem_setRemove _ _ _).mp hb).1))
          · rcases (mem_setInsert _ _ _).mp hb with rfl | hb2
            · exact hidkeys
            · exact (hmatch b).mp (Or.inr (Or.inr hb2))
        · intro hb
          by_cases hbid : b = id
          · subst hbid
            exact Or.inr (Or.inr ((mem_setInsert _ _ _).mpr (Or.inl rfl)))
          · rcases (hmatch b).mpr hb with hb2 | hb2 | hb2
            · exact Or.inl ((mem_setRemove _ _ _).mpr ⟨hb2, hbid⟩)
            · exact Or.inr (Or.inl ((mem_setRemove _ _ _).mpr ⟨hb2, hbid⟩))
            · exact Or.inr (Or.inr ((mem_setInsert _ _ _).mpr (Or.inr hb2)))
      · intro b nb hb
        simp only [Lru.setValue, Lru.popKey] at hb
        by_cases hbid : b = id
        · subst hbid
          rw [hlkself] at hb
          cases hb
          constructor
          · intro _
            simp
          · intro _
            exact (mem_setInsert _ _ _).mpr (Or.inl rfl)
        · rw [hlkne b hbid] at hb
          constructor
          · intro hm
            rcases (mem_setInsert _ _ _).mp hm with rfl | hm2
            · exact absurd rfl hbid
            · exact (hcoup b nb hb).mp hm2
          · intro hm
            exact (mem_setInsert _ _ _).mpr (Or.inr ((hcoup b nb hb).mpr hm))
    | liftQuarantine =>
      dsimp only [Lru.setValue, Lru.popKey]
      obtain ⟨hndv, hkeysv, hlkself, hlkne⟩ :=
        hSV { (default_policy_check now (f node0)).2 with
              logs := { (default_policy_check now (f node0)).2.logs with quarantined := none } }
      have hsome : node0.logs.quarantined.isSome := by
        have h := default_policy_check_lift_isSome now (f node0) hrep
        rw [hf node0] at h
        exact h
      have hidq : id ∈ s.quarantined := (hcoup id node0 hlk).mpr hsome
      have hidav : id ∉ s.available := fun h => (hdisj.1 id h).2 hidq
      have hidnr : id ∉ s.not_reachable := fun h => hdisj.2 id h hidq
      split_ifs with h1
      · refine ⟨hndv, ⟨?_, ?_⟩, ?_, ?_⟩
        · intro a hmem
          rcases (mem_setInsert _ _ _).mp hmem with rfl | hm2
          · exact ⟨hidnr, fun hm => ((mem_setRemove _ _ _).mp hm).2 rfl⟩
          · exact ⟨(hdisj.1 a hm2).1,
              fun hm => (hdisj.1 a hm2).2 ((mem_setRemove _ _ _).mp hm).1⟩
        · intro a hmem
          exact fun hm => hdisj.2 a hmem ((mem_setRemove _ _ _).mp hm).1
        · intro b
          refine Iff.trans ?_ (hkeysv b).symm
          constructor
          · rintro (hb | hb | hb)
            · rcases (mem_setInsert _ _ _).mp hb with rfl | hb2
              · exact hidkeys
              · exact (hmatch b).mp (Or.inl hb2)
            · exact (hmatch b).mp (Or.inr (Or.inl hb))
            · exact (hmatch b).mp (Or.inr (Or.inr ((mem_setRemove _ _ _).mp hb).1))
          · intro hb
            by_cases hbid : b = id
            · subst hbid
              exact Or.inl ((mem_setInsert _ _ _).mpr (Or.inl rfl))
            · rcases (hmatch b).mpr hb with hb2 | hb2 | hb2
              · exact Or.inl ((mem_setInsert _ _ _).mpr (Or.inr hb2))
              · exact Or.inr (Or.inl hb2)
              · exact Or.inr (Or.inr ((mem_setRemove _ _ _).mpr ⟨hb2, hbid⟩))
        · intro b nb hb
          simp only [Lru.setValue, Lru.popKey] at hb
          by_cases hbid : b = id
          · subst hbid
            rw [hlkself] at hb
            cases hb
            constructor
            · intro hm
              exact absurd rfl ((mem_setRemove _ _ _).mp hm).2
            · intro hm
              simp at hm
          · rw [hlkne b hbid] at hb
            constructor
            · intro hm
              exact (hcoup b nb hb).mp ((mem_setRemove _ _ _).mp hm).1
            · intro hm
              exact (mem_setRemove _ _ _).mpr ⟨(hcoup b nb hb).mpr hm, hbid⟩
      · refine ⟨hndv, ⟨?_, ?_⟩, ?_, ?_⟩
        · intro a hmem
          refine ⟨fun hm => ?_, fun hm => (hdisj.1 a hmem).2 ((mem_setRemove _ _ _).mp hm).1⟩
          rcases (mem_setInsert _ _ _).mp hm with rfl | hm2
          · exact hidav hmem
          · exact (hdisj.1 a hmem).1 hm2
        · intro a hmem
          rcases (mem_setInsert _ _ _).mp hmem with rfl | hm2
          · exact fun hm => ((mem_setRemove _ _ _).mp hm).2 rfl
          · exact fun hm => hdisj.2 a hm2 ((mem_setRemove _ _ _).mp hm).1
        · intro b
          refine Iff.trans ?_ (hkeysv b).symm
          constructor
          · rintro (hb | hb | hb)
            · exact (hmatch b).mp (Or.inl hb)
            · rcases (mem_setInsert _ _ _).mp hb with rfl | hb2
              · exact hidkeys
              · exact (hmatch b).mp (Or.inr (Or.inl hb2))
            · exact (hmatch b).mp (Or.inr (Or.inr ((mem_setRemove _ _ _).mp hb).1))
          · intro hb
            by_cases hbid : b = id
            · subst hbid
              exact Or.inr (Or.inl ((mem_setInsert _ _ _).mpr (Or.inl rfl)))
            · rcases (hmatch b).mpr hb with hb2 | hb2 | hb2
              · exact Or.inl hb2
              · exact Or.inr (Or.inl ((mem_setInsert _ _ _).mpr (Or.inr hb2)))
              · exact Or.inr (Or.inr ((mem_setRemove _ _ _).mpr ⟨hb2, hbid⟩))
        · intro b nb hb
          simp only [Lru.setValue, Lru.popKey] at hb
          by_cases hbid : b = id
          · subst hbid
            rw [hlkself] at hb
            cases hb
            constructor
            · intro hm
              exact absurd rfl ((mem_setRemove _ _ _).mp hm).2
            · intro hm
              simp at hm
          · rw [hlkne b hbid] at hb
            constructor
            · intro hm
              exact (hcoup b nb hb).mp ((mem_setRemove _ _ _).mp hm).1
            · intro hm
              exact (mem_setRemove _ _ _).mpr ⟨(hcoup b nb hb).mpr hm, hbid⟩

/-- Invariant threaded through the `Nodes::reset` walk: `cur` is the store
being rewritten, `rem` the keys collected for removal (unbucketed but
still in the LRU), `rest` the entries not yet visited. -/
def ResetMid (cur : Nodes) (rem : List Nat) (rest : List (Nat × Node)) : Prop :=
  (nodesKeys cur).Nodup ∧
  rem.Nodup ∧
  (∀ k ∈ rem, k ∈ nodesKeys cur ∧ k ∉ cur.available ∧ k ∉ cur.not_reachable ∧
    k ∉ cur.quarantined) ∧
  (∀ a, (a ∈ cur.available ∨ a ∈ cur.not_reachable ∨ a ∈ cur.quarantined)
    ↔ (a ∈ nodesKeys cur ∧ a ∉ rem)) ∧
  BucketsDisjoint cur ∧
  (∀ a node, a ∉ rem → cur.all.entries.lookup a = some node →
    (a ∈ cur.quarantined ↔ node.logs.quarantined.isSome)) ∧
  (∀ kn ∈ rest, cur.all.entries.lookup kn.1 = some kn.2) ∧
  (rest.map Prod.fst).Nodup ∧
  (∀ kn ∈ rest, kn.1 ∉ rem)

theorem reset_step_mid (now : Nat) (cur : Nodes) (rem : List Nat) (kn : Nat × Node)
    (rest : List (Nat × Node)) (hmid : ResetMid cur rem (kn :: rest)) :
    ResetMid (Nodes.reset_step now (cur, rem) kn).1 (Nodes.reset_step now (cur, rem) kn).2
      rest := by
  obtain ⟨h1, h2, h3, h4, h5, h6, h7, h8, h9⟩ := hmid
  have hlk : cur.all.entries.lookup kn.1 = some kn.2 := h7 kn (List.mem_cons_self _ _)
  have hknotrem : kn.1 ∉ rem := h9 kn (List.mem_cons_self _ _)
  have hkkeys : kn.1 ∈ nodesKeys cur := mem_keys_of_lookup _ _ _ hlk
  have hrest7 : ∀ km ∈ rest, cur.all.entries.lookup km.1 = some km.2 :=
    fun km hm => h7 km (List.mem_cons_of_mem _ hm)
  have h8c : kn.1 ∉ rest.map Prod.fst ∧ (rest.map Prod.fst).Nodup := by
    rw [List.map_cons, List.nodup_cons] at h8
    exact h8
  have hrest9 : ∀ km ∈ rest, km.1 ∉ rem :=
    fun km hm => h9 km (List.mem_cons_of_mem _ hm)
  have hkeysSV : ∀ v : Node,
      (cur.all.entries.map (fun e => if e.1 = kn.1 then (kn.1, v) else e)).map Prod.fst
        = nodesKeys cur := fun v => keys_map_setValue _ _ _
  have hlkSVself : ∀ v : Node,
      (cur.all.entries.map (fun e => if e.1 = kn.1 then (kn.1, v) else e)).lookup kn.1
        = some v := by
    intro v
    rw [lookup_map_setValue_self, hlk]
    rfl
  have hlkSVne : ∀ (v : Node) (b : Nat), b ≠ kn.1 →
      (cur.all.entries.map (fun e => if e.1 = kn.1 then (kn.1, v) else e)).lookup b
        = cur.all.entries.lookup b :=
    fun v b hb => lookup_map_setValue_ne _ _ _ _ hb
  have hlogq : (default_policy_check now kn.2).2.logs.quarantined
      = kn.2.logs.quarantined := by rw [default_policy_check_logs]
  unfold Nodes.reset_step
  dsimp only [Lru.setValue]
  cases hrep : (default_policy_check now kn.2).1 with
  | none =>
    dsimp only [Lru.setValue]
    refine ⟨?_, h2, ?_, ?_, h5, ?_, ?_, h8c.2, hrest9⟩
    · show ((cur.all.entries.map _).map Prod.fst).Nodup
      rw [hkeysSV]
      exact h1
    · intro k hk
      refine ⟨?_, (h3 k hk).2.1, (h3 k hk).2.2.1, (h3 k hk).2.2.2⟩
      show k ∈ (cur.all.entries.map _).map Prod.fst
      rw [hkeysSV]
      exact (h3 k hk).1
    · intro a
      refine (h4 a).trans ?_
      constructor
      · rintro ⟨ha, hb⟩
        refine ⟨?_, hb⟩
        show a ∈ (cur.all.entries.map _).map Prod.fst
        rw [hkeysSV]
        exact ha
      · rintro ⟨ha, hb⟩
        refine ⟨?_, hb⟩
        rw [show nodesKeys cur = (cur.all.entries.map
          (fun e => if e.1 = kn.1 then (kn.1, (default_policy_check now kn.2).2) else e)).map
            Prod.fst from (hkeysSV _).symm]
        exact ha
    · intro a node ha hb
      by_cases hak : a = kn.1
      · subst hak
        rw [hlkSVself] at hb
        cases hb
        show kn.1 ∈ cur.quarantined ↔ _
        rw [hlogq]
        exact h6 kn.1 kn.2 ha hlk
      · rw [hlkSVne _ a hak] at hb
        exact h6 a node ha hb
    · intro km hm
      have hne : km.1 ≠ kn.1 := by
        intro he
        exact h8c.1 (he ▸ List.mem_map_of_mem Prod.fst hm)
      rw [hlkSVne _ km.1 hne]
      exact hrest7 km hm
  | forget =>
    dsimp only [Lru.setValue]
    refine ⟨h1, ?_, ?_, ?_, ?_, ?_, hrest7, h8c.2, ?_⟩
    · rw [List.nodup_append]
      exact ⟨h2, List.nodup_singleton _, fun a ha hb => by
        rw [List.mem_singleton] at hb
        subst hb
        exact hknotrem ha⟩
    · intro k hk
      rcases List.mem_append.mp hk with hk2 | hk2
      · refine ⟨(h3 k hk2).1, fun hm => ?_, fun hm => ?_, fun hm => ?_⟩
        · exact (h3 k hk2).2.1 ((mem_setRemove _ _ _).mp hm).1
        · exact (h3 k hk2).2.2.1 ((mem_setRemove _ _ _).mp hm).1
        · exact (h3 k hk2).2.2.2 ((mem_setRemove _ _ _).mp hm).1
      · rw [List.mem_singleton] at hk2
        subst hk2
        refine ⟨hkkeys, fun hm => ?_, fun hm => ?_, fun hm => ?_⟩ <;>
          exact ((mem_setRemove _ _ _).mp hm).2 rfl
    · intro a
      constructor
      · rintro (ha | ha | ha) <;>
          obtain ⟨ha2, hane⟩ := (mem_setRemove _ _ _).mp ha
        · obtain ⟨hk, hr⟩ := (h4 a).mp (Or.inl ha2)
          exact ⟨hk, fun hm => (List.mem_append.mp hm).elim hr (fun hm2 => hane (List.mem_singleton.mp hm2))⟩
        · obtain ⟨hk, hr⟩ := (h4 a).mp (Or.inr (Or.inl ha2))
          exact ⟨hk, fun hm => (List.mem_append.mp hm).elim hr (fun hm2 => hane (List.mem_singleton.mp hm2))⟩
        · obtain ⟨hk, hr⟩ := (h4 a).mp (Or.inr (Or.inr ha2))
          exact ⟨hk, fun hm => (List.mem_append.mp hm).elim hr (fun hm2 => hane (List.mem_singleton.mp hm2))⟩
      · rintro ⟨ha, hr⟩
        have hane : a ≠ kn.1 := fun he => hr (List.mem_append.mpr (Or.inr (by simp [he])))
        have hrem : a ∉ rem := fun he => hr (List.mem_append.mpr (Or.inl he))
        rcases (h4 a).mpr ⟨ha, hrem⟩ with ha2 | ha2 | ha2
        · exact Or.inl ((mem_setRemove _ _ _).mpr ⟨ha2, hane⟩)
        · exact Or.inr (Or.inl ((mem_setRemove _ _ _).mpr ⟨ha2, hane⟩))
        · exact Or.inr (Or.inr ((mem_setRemove _ _ _).mpr ⟨ha2, hane⟩))
    · refine ⟨fun a ha => ?_, fun a ha => ?_⟩
      · obtain ⟨ha2, hane⟩ := (mem_setRemove _ _ _).mp ha
        exact ⟨fun hm => (h5.1 a ha2).1 ((mem_setRemove _ _ _).mp hm).1,
          fun hm => (h5.1 a ha2).2 ((mem_setRemove _ _ _).mp hm).1⟩
      · obtain ⟨ha2, hane⟩ := (mem_setRemove _ _ _).mp ha
        exact fun hm => h5.2 a ha2 ((mem_setRemove _ _ _).mp hm).1
    · intro a node ha hb
      have hane : a ≠ kn.1 := fun he => ha (List.mem_append.mpr (Or.inr (by simp [he])))
      have hrem : a ∉ rem := fun he => ha (List.mem_append.mpr (Or.inl he))
      constructor
      · intro hm
        exact (h6 a node hrem hb).mp ((mem_setRemove _ _ _).mp hm).1
      · intro hm
        exact (mem_setRemove _ _ _).mpr ⟨(h6 a node hrem hb).mpr hm, hane⟩
    · intro km hm
      intro hmem
      rcases List.mem_append.mp hmem with hm2 | hm2
      · exact hrest9 km hm hm2
      · rw [List.mem_singleton] at hm2
        exact h8c.1 (hm2 ▸ List.mem_map_of_mem Prod.fst hm)
  | quarantine =>
    dsimp only [Lru.setValue]
    refine ⟨?_, h2, ?_, ?_, ?_, ?_, ?_, h8c.2, hrest9⟩
    · show ((cur.all.entries.map _).map Prod.fst).Nodup
      rw [hkeysSV]
      exact h1
    · intro k hk
      refine ⟨?_, fun hm => ?_, fun hm => ?_, fun hm => ?_⟩
      · show k ∈ (cur.all.entries.map _).map Prod.fst
        rw [hkeysSV]
        exact (h3 k hk).1
      · exact (h3 k hk).2.1 ((mem_setRemove _ _ _).mp hm).1
      · exact (h3 k hk).2.2.1 ((mem_setRemove _ _ _).mp hm).1
      · rcases (mem_setInsert _ _ _).mp hm with rfl | hm2
        · exact hknotrem hk
        · exact (h3 k hk).2.2.2 hm2
    · intro a
      constructor
      · rintro (ha | ha | ha)
        · obtain ⟨ha2, hane⟩ := (mem_setRemove _ _ _).mp ha
          obtain ⟨hk, hr⟩ := (h4 a).mp (Or.inl ha2)
          refine ⟨?_, hr⟩
          show a ∈ (cur.all.entries.map _).map Prod.fst
          rw [hkeysSV]
          exact hk
        · obtain ⟨ha2, hane⟩ := (mem_setRemove _ _ _).mp ha
          obtain ⟨hk, hr⟩ := (h4 a).mp (Or.inr (Or.inl ha2))
          refine ⟨?_, hr⟩
          show a ∈ (cur.all.entries.map _).map Prod.fst
          rw [hkeysSV]
          exact hk
        · rcases (mem_setInsert _ _ _).mp ha with rfl | ha2
          · refine ⟨?_, hknotrem⟩
            show kn.1 ∈ (cur.all.entries.map _).map Prod.fst
            rw [hkeysSV]
            exact hkkeys
          · obtain ⟨hk, hr⟩ := (h4 a).mp (Or.inr (Or.inr ha2))
            refine ⟨?_, hr⟩
            show a ∈ (cur.all.entries.map _).map Prod.fst
            rw [hkeysSV]
            exact hk
      · rintro ⟨ha, hr⟩
        have hak : a ∈ nodesKeys cur := by
          rw [show nodesKeys cur = (cur.all.entries.map
            (fun e => if e.1 = kn.1 then (kn.1,
              { (default_policy_check now kn.2).2 with
                logs := { (default_policy_check now kn.2).2.logs with
                          quarantined := some now } }) else e)).map Prod.fst
            from (hkeysSV _).symm]
          exact ha
        by_cases hane : a = kn.1
        · subst hane
          exact Or.inr (Or.inr ((mem_setInsert _ _ _).mpr (Or.inl rfl)))
        · rcases (h4 a).mpr ⟨hak, hr⟩ with ha2 | ha2 | ha2
          · exact Or.inl ((mem_setRemove _ _ _).mpr ⟨ha2, hane⟩)
          · exact Or.inr (Or.inl ((mem_setRemove _ _ _).mpr ⟨ha2, hane⟩))
          · exact Or.inr (Or.inr ((mem_setInsert _ _ _).mpr (Or.inr ha2)))
    · refine ⟨fun a ha => ?_, fun a ha => ?_⟩
      · obtain ⟨ha2, hane⟩ := (mem_setRemove _ _ _).mp ha
        refine ⟨fun hm => (h5.1 a ha2).1 ((mem_setRemove _ _ _).mp hm).1, fun hm => ?_⟩
        rcases (mem_setInsert _ _ _).mp hm with rfl | hm2
        · exact hane rfl
        · exact (h5.1 a ha2).2 hm2
      · obtain ⟨ha2, hane⟩ := (mem_setRemove _ _ _).mp ha
        intro hm
        rcases (mem_setInsert _ _ _).mp hm with rfl | hm2
        · exact hane rfl
        · exact h5.2 a ha2 hm2
    · intro a node ha hb
      by_cases hak : a = kn.1
      · subst hak
        rw [hlkSVself] at hb
        cases hb
        constructor
        · intro _
          simp
        · intro _
          exact (mem_setInsert _ _ _).mpr (Or.inl rfl)
      · rw [hlkSVne _ a hak] at hb
        constructor
        · intro hm
          rcases (mem_setInsert _ _ _).mp hm with rfl | hm2
          · exact absurd rfl hak
          · exact (h6 a node ha hb).mp hm2
        · intro hm
          exact (mem_setInsert _ _ _).mpr (Or.inr ((h6 a node ha hb).mpr hm))
    · intro km hm
      have hne : km.1 ≠ kn.1 := by
        intro he
        exact h8c.1 (he ▸ List.mem_map_of_mem Prod.fst hm)
      rw [hlkSVne _ km.1 hne]
      exact hrest7 km hm
  | liftQuarantine =>
    dsimp only [Lru.setValue]
    have hsome : kn.2.logs.quarantined.isSome :=
      default_policy_check_lift_isSome now kn.2 hrep
    have hkq : kn.1 ∈ cur.quarantined := (h6 kn.1 kn.2 hknotrem hlk).mpr hsome
    have hkav : kn.1 ∉ cur.available := fun h => (h5.1 kn.1 h).2 hkq
    have hknr : kn.1 ∉ cur.not_reachable := fun h => h5.2 kn.1 h hkq
    split_ifs with hdc
    · refine ⟨?_, h2, ?_, ?_, ?_, ?_, ?_, h8c.2, hrest9⟩
      · show ((cur.all.entries.map _).map Prod.fst).Nodup
        rw [hkeysSV]
        exact h1
      · intro k hk
        refine ⟨?_, fun hm => ?_, (h3 k hk).2.2.1, fun hm => ?_⟩
        · show k ∈ (cur.all.entries.map _).map Prod.fst
          rw [hkeysSV]
          exact (h3 k hk).1
        · rcases (mem_setInsert _ _ _).mp hm with rfl | hm2
          · exact hknotrem hk
          · exact (h3 k hk).2.1 hm2
        · exact (h3 k hk).2.2.2 ((mem_setRemove _ _ _).mp hm).1
      · intro a
        constructor
        · rintro (ha | ha | ha)
          · rcases (mem_setInsert _ _ _).mp ha with rfl | ha2
            · refine ⟨?_, hknotrem⟩
              show kn.1 ∈ (cur.all.entries.map _).map Prod.fst
              rw [hkeysSV]
              exact hkkeys
            · obtain ⟨hk, hr⟩ := (h4 a).mp (Or.inl ha2)
              refine ⟨?_, hr⟩
              show a ∈ (cur.all.entries.map _).map Prod.fst
              rw [hkeysSV]
              exact hk
          · obtain ⟨hk, hr⟩ := (h4 a).mp (Or.inr (Or.inl ha))
            refine ⟨?_, hr⟩
            show a ∈ (cur.all.entries.map _).map Prod.fst
            rw [hkeysSV]
            exact hk
          · obtain ⟨ha2, hane⟩ := (mem_setRemove _ _ _).mp ha
            obtain ⟨hk, hr⟩ := (h4 a).mp (Or.inr (Or.inr ha2))
            refine ⟨?_, hr⟩
            show a ∈ (cur.all.entries.map _).map Prod.fst
            rw [hkeysSV]
            exact hk
        · rintro ⟨ha, hr⟩
          have hak : a ∈ nodesKeys cur := by
            rw [show nodesKeys cur = (cur.all.entries.map
              (fun e => if e.1 = kn.1 then (kn.1,
                { (default_policy_check now kn.2).2 with
                  logs := { (default_policy_check now kn.2).2.logs with
                            quarantined := none } }) else e)).map Prod.fst
              from (hkeysSV _).symm]
            exact ha
          by_cases hane : a = kn.1
          · subst hane
            exact Or.inl ((mem_setInsert _ _ _).mpr (Or.inl rfl))
          · rcases (h4 a).mpr ⟨hak, hr⟩ with ha2 | ha2 | ha2
            · exact Or.inl ((mem_setInsert _ _ _).mpr (Or.inr ha2))
            · exact Or.inr (Or.inl ha2)
            · exact Or.inr (Or.inr ((mem_setRemove _ _ _).mpr ⟨ha2, hane⟩))
      · refine ⟨fun a ha => ?_, fun a ha => ?_⟩
        · rcases (mem_setInsert _ _ _).mp ha with rfl | ha2
          · exact ⟨hknr, fun hm => ((mem_setRemove _ _ _).mp hm).2 rfl⟩
          · exact ⟨(h5.1 a ha2).1,
              fun hm => (h5.1 a ha2).2 ((mem_setRemove _ _ _).mp hm).1⟩
        · exact fun hm => h5.2 a ha ((mem_setRemove _ _ _).mp hm).1
      · intro a node ha hb
        by_cases hak : a = kn.1
        · subst hak
          rw [hlkSVself] at hb
          cases hb
          constructor
          · intro hm
            exact absurd rfl ((mem_setRemove _ _ _).mp hm).2
          · intro hm
            simp at hm
        · rw [hlkSVne _ a hak] at hb
          constructor
          · intro hm
            exact (h6 a node ha hb).mp ((mem_setRemove _ _ _).mp hm).1
          · intro hm
            exact (mem_setRemove _ _ _).mpr ⟨(h6 a node ha hb).mpr hm, hak⟩
      · intro km hm
        have hne : km.1 ≠ kn.1 := by
          intro he
          exact h8c.1 (he ▸ List.mem_map_of_mem Prod.fst hm)
        rw [hlkSVne _ km.1 hne]
        exact hrest7 km hm
    · refine ⟨?_, h2, ?_, ?_, ?_, ?_, ?_, h8c.2, hrest9⟩
      · show ((cur.all.entries.map _).map Prod.fst).Nodup
        rw [hkeysSV]
        exact h1
      · intro k hk
        refine ⟨?_, (h3 k hk).2.1, fun hm => ?_, fun hm => ?_⟩
        · show k ∈ (cur.all.entries.map _).map Prod.fst
          rw [hkeysSV]
          exact (h3 k hk).1
        · rcases (mem_setInsert _ _ _).mp hm with rfl | hm2
          · exact hknotrem hk
          · exact (h3 k hk).2.2.1 hm2
        · exact (h3 k hk).2.2.2 ((mem_setRemove _ _ _).mp hm).1
      · intro a
        constructor
        · rintro (ha | ha | ha)
          · obtain ⟨hk, hr⟩ := (h4 a).mp (Or.inl ha)
            refine ⟨?_, hr⟩
            show a ∈ (cur.all.entries.map _).map Prod.fst
            rw [hkeysSV]
            exact hk
          · rcases (mem_setInsert _ _ _).mp ha with rfl | ha2
            · refine ⟨?_, hknotrem⟩
              show kn.1 ∈ (cur.all.entries.map _).map Prod.fst
              rw [hkeysSV]
              exact hkkeys
            · obtain ⟨hk, hr⟩ := (h4 a).mp (Or.inr (Or.inl ha2))
              refine ⟨?_, hr⟩
              show a ∈ (cur.all.entries.map _).map Prod.fst
              rw [hkeysSV]
              exact hk
          · obtain ⟨ha2, hane⟩ := (mem_setRemove _ _ _).mp ha
            obtain ⟨hk, hr⟩ := (h4 a).mp (Or.inr (Or.inr ha2))
            refine ⟨?_, hr⟩
            show a ∈ (cur.all.entries.map _).map Prod.fst
            rw [hkeysSV]
            exact hk
        · rintro ⟨ha, hr⟩
          have hak : a ∈ nodesKeys cur := by
            rw [show nodesKeys cur = (cur.all.entries.map
              (fun e => if e.1 = kn.1 then (kn.1,
                { (default_policy_check now kn.2).2 with
                  logs := { (default_policy_check now kn.2).2.logs with
                            quarantined := none } }) else e)).map Prod.fst
              from (hkeysSV _).symm]
            exact ha
          by_cases hane : a = kn.1
          · subst hane
            exact Or.inr (Or.inl ((mem_setInsert _ _ _).mpr (Or.inl rfl)))
          · rcases (h4 a).mpr ⟨hak, hr⟩ with ha2 | ha2 | ha2
            · exact Or.inl ha2
            · exact Or.inr (Or.inl ((mem_setInsert _ _ _).mpr (Or.inr ha2)))
            · exact Or.inr (Or.inr ((mem_setRemove _ _ _).mpr ⟨ha2, hane⟩))
      · refine ⟨fun a ha => ?_, fun a ha => ?_⟩
        · refine ⟨fun hm => ?_, fun hm => (h5.1 a ha).2 ((mem_setRemove _ _ _).mp hm).1⟩
          rcases (mem_setInsert _ _ _).mp hm with rfl | hm2
          · exact hkav ha
          · exact (h5.1 a ha).1 hm2
        · rcases (mem_setInsert _ _ _).mp ha with rfl | ha2
          · exact fun hm => ((mem_setRemove _ _ _).mp hm).2 rfl
          · exact fun hm => h5.2 a ha2 ((mem_setRemove _ _ _).mp hm).1
      · intro a node ha hb
        by_cases hak : a = kn.1
        · subst hak
          rw [hlkSVself] at hb
          cases hb
          constructor
          · intro hm
            exact absurd rfl ((mem_setRemove _ _ _).mp hm).2
          · intro hm
            simp at hm
        · rw [hlkSVne _ a hak] at hb
          constructor
          · intro hm
            exact (h6 a node ha hb).mp ((mem_setRemove _ _ _).mp hm).1
          · intro hm
            exact (mem_setRemove _ _ _).mpr ⟨(h6 a node ha hb).mpr hm, hak⟩
      · intro km hm
        have hne : km.1 ≠ kn.1 := by
          intro he
          exact h8c.1 (he ▸ List.mem_map_of_mem Prod.fst hm)
        rw [hlkSVne _ km.1 hne]
        exact hrest7 km hm

theorem reset_fold_mid (now : Nat) :
    ∀ (rest : List (Nat × Node)) (acc : Nodes × List Nat),
    ResetMid acc.1 acc.2 rest →
    ResetMid (rest.foldl (Nodes.reset_step now) acc).1
             (rest.foldl (Nodes.reset_step now) acc).2 [] := by
  intro rest
  induction rest with
  | nil => intro acc h; exact h
  | cons kn rest ih =>
    intro acc h
    simp only [List.foldl_cons]
    exact ih (Nodes.reset_step now acc kn) (reset_step_mid now acc.1 acc.2 kn rest h)

theorem reset_pop_mid :
    ∀ (rem : List Nat) (cur : Nodes), ResetMid cur rem [] →
    NodesInv (rem.foldl (fun st k => { st with all := st.all.popKey k }) cur) := by
  intro rem
  induction rem with
  | nil =>
    intro cur h
    obtain ⟨h1, _, _, h4, h5, h6, _, _, _⟩ := h
    refine ⟨h1, h5, ?_, ?_⟩
    · intro a
      refine (h4 a).trans ?_
      simp
    · intro a node hb
      exact h6 a node (by simp) hb
  | cons k rem ih =>
    intro cur h
    obtain ⟨h1, h2, h3, h4, h5, h6, _, _, _⟩ := h
    have hk := h3 k (List.mem_cons_self _ _)
    have h2c : k ∉ rem ∧ rem.Nodup := by
      rw [List.nodup_cons] at h2
      exact h2
    simp only [List.foldl_cons]
    refine ih { cur with all := cur.all.popKey k }
      ⟨?_, h2c.2, ?_, ?_, h5, ?_, ?_, ?_, ?_⟩
    · exact nodup_keys_eraseKey _ _ h1
    · intro j hj
      have hjk : j ≠ k := fun he => h2c.1 (he ▸ hj)
      have hjm := h3 j (List.mem_cons_of_mem _ hj)
      exact ⟨mem_keys_eraseKey_ne _ _ _ hjk hjm.1, hjm.2.1, hjm.2.2.1, hjm.2.2.2⟩
    · intro a
      constructor
      · intro ha
        obtain ⟨hak, har⟩ := (h4 a).mp ha
        have hane : a ≠ k := fun he => har (he ▸ List.mem_cons_self k rem)
        refine ⟨mem_keys_eraseKey_ne _ _ _ hane hak, fun hm => har (List.mem_cons_of_mem _ hm)⟩
      · rintro ⟨hak, har⟩
        have hane : a ≠ k := by
          intro he
          subst he
          exact not_mem_keys_eraseKey_self _ _ h1 hak
        refine (h4 a).mpr ⟨keys_eraseKey_subset _ _ _ hak, fun hm => ?_⟩
        rcases List.mem_cons.mp hm with he | hm2
        · exact hane he
        · exact har hm2
    · intro a node ha hb
      by_cases hak : a = k
      · subst hak
        have hnone : (cur.all.entries.eraseP (fun e => e.1 == a)).lookup a = none :=
          (lookup_eq_none_iff _ _).mpr (not_mem_keys_eraseKey_self _ _ h1)
        have hb2 : (cur.all.entries.eraseP (fun e => e.1 == a)).lookup a = some node := hb
        rw [hnone] at hb2
        cases hb2
      · have hb2 : cur.all.entries.lookup a = some node := by
          have hb3 : (cur.all.entries.eraseP (fun e => e.1 == k)).lookup a = some node := hb
          rwa [lookup_eraseKey_ne _ _ _ hak] at hb3
        refine h6 a node (fun hm => ?_) hb2
        rcases List.mem_cons.mp hm with he | hm2
        · exact hak he
        · exact ha hm2
    · intro kn hm
      exact absurd hm (List.not_mem_nil kn)
    · exact List.nodup_nil
    · intro kn hm
      exact absurd hm (List.not_mem_nil kn)

theorem nodes_reset_inv (s : Nodes) (now : Nat) (hinv : NodesInv s) :
    NodesInv (s.reset now) := by
  obtain ⟨hnd, hdisj, hmatch, hcoup⟩ := hinv
  have hmid : ResetMid s [] s.all.entries := by
    refine ⟨hnd, List.nodup_nil, ?_, ?_, hdisj, ?_, ?_, hnd, ?_⟩
    · intro k hk
      exact absurd hk (List.not_mem_nil k)
    · intro a
      refine (hmatch a).trans ?_
      simp
    · intro a node _ hb
      exact hcoup a node hb
    · intro kn hm
      exact lookup_of_mem_nodup _ kn.1 kn.2 hnd hm
    · intro kn _
      simp
  unfold Nodes.reset
  dsimp only
  exact reset_pop_mid _ _ (reset_fold_mid now s.all.entries (s, []) hmid)

theorem nodes_apply_inv (s : Nodes) (op : NodesOp) (hinv : NodesInv s)
    (hok : okOp s op) : NodesInv (s.apply op) := by
  cases op with
  | insertNode node => exact nodes_insert_inv s node hinv hok.1 hok.2
  | modifyNode id f now => exact nodes_modify_inv s id f now hinv hok
  | resetNodes now => exact nodes_reset_inv s now hinv

theorem nodes_applyAll_inv :
    ∀ (ops : List NodesOp) (s : Nodes), NodesInv s → okSeq s ops →
    NodesInv (s.applyAll ops) := by
  intro ops
  induction ops with
  | nil => intro s h _; exact h
  | cons op ops ih =>
    intro s h hseq
    exact ih (s.apply op) (nodes_apply_inv s op h hseq.1) hseq.2

/-- Claim C4, amended: starting from an empty store, after any sequence of
entry inserts, entry modifications (with the default policy), and resets,
the three bucket sets are pairwise disjoint and their union equals the key
set of the LRU — provided every insert happens while the LRU is below
capacity (eviction leaves the evicted key bucketed, breaking the claim,
as the counterexample shows), inserted nodes carry no quarantine
timestamp, and the modification closures preserve the quarantine log (the
public `Node` API only lets callers mutate the strike record). -/
theorem nodes_buckets_inv (cap : Nat) (ops : List NodesOp)
    (hops : okSeq (Nodes.new cap) ops) :
    BucketsDisjoint (Nodes.applyAll (Nodes.new cap) ops) ∧
      BucketsMatchKeys (Nodes.applyAll (Nodes.new cap) ops) := by
  have hinit : NodesInv (Nodes.new cap) := by
    refine ⟨List.nodup_nil, ⟨?_, ?_⟩, ?_, ?_⟩
    · intro a ha
      exact absurd ha (List.not_mem_nil a)
    · intro a ha
      exact absurd ha (List.not_mem_nil a)
    · intro a
      simp [Nodes.new, nodesKeys]
    · intro a node hb
      exact absurd hb (by simp [Nodes.new, List.lookup])
  have h := nodes_applyAll_inv ops (Nodes.new cap) hinit hops
  exact ⟨h.2.1, h.2.2.1⟩

/-- A benign operation sequence for the C4 witness: one insert below
capacity, an identity modification, and a reset. -/
def c4okOps : List NodesOp :=
  [NodesOp.insertNode (discNode 1), NodesOp.modifyNode 1 (fun n => n) 5,
   NodesOp.resetNodes 10]

/-- Claim C4, witness for the amended theorem at a concrete benign
sequence. -/
theorem nodes_buckets_inv_witness :
    BucketsDisjoint (Nodes.applyAll (Nodes.new 4) c4okOps) ∧
      BucketsMatchKeys (Nodes.applyAll (Nodes.new 4) c4okOps) :=
  nodes_buckets_inv 4 c4okOps ⟨⟨rfl, by decide⟩, fun n => rfl, trivial, trivial⟩

end Poldercast
